import Mathlib

/-!
Verification development for the GPU job scheduler daemon
(`gpu-scheduler.py`).  The scheduler's in-memory state (job store,
priority queue, GPU inventory) is embedded as a pure state machine.
External effects are passed in as explicit parameters:
the probe output of `nvidia-smi` is a raw string (`probe`), process
liveness (`os.kill(pid, 0)`) is an `alive : Nat → Bool` function,
the exit status recovered by `os.waitpid` is `exitOf : Nat → Int`,
process launch (`subprocess.Popen`) either yields a pid or raises
(`pid? : Nat → Option Nat`), and group-termination
(`os.killpg`) either succeeds or raises (`sigOk : Bool`).

Modelling conventions:
* string job ids `"job<N>"` are represented by the number `N`
  (ids are generated only by `_get_job_id`, so this is one-to-one);
* python dicts are association lists in insertion order
  (`jobs`, `gpus`), assignment appends new keys and overwrites in place;
* `queue.PriorityQueue` is a list kept sorted by the lexicographic key
  `(-priority, submit_time, job_id)`; `put` is sorted insertion, `get`
  takes the head;
* python `list.remove` on the available list is `pyRemoveAll`: it
  removes the first occurrence of each assigned id in turn, and `none`
  models the `ValueError` raised when an id is absent -- which can
  happen, since a pinned job may list the same GPU id twice and the
  feasibility check only tests membership; as in the source, the raise
  aborts the placement pass;
* numeric probe fields are parsed with decimal integer parsing,
  modelling `int(float(s))` and `float(s)` on the integral strings the
  probe contract describes; a non-numeric field fails in both.
-/

namespace GpuSched

/-- Job lifecycle states (the `status` string field of `Job`). -/
inductive Status where
  | queued
  | running
  | completed
  | failed
  | cancelled
deriving DecidableEq, Repr

/-- Configuration for a job to be executed (dataclass `JobConfig`). -/
structure JobConfig where
  command : String
  gpu_ids : Option (List Nat) := none
  num_gpus : Int := 1
  memory_limit : Int := 5
  env : Option (List (String × String)) := none
  working_dir : Option String := none
  name : Option String := none
  priority : Int := 0
deriving DecidableEq, Repr

/-- A job that is either queued or running (dataclass `Job`, which
extends `JobConfig` with scheduler-managed fields). -/
structure Job extends JobConfig where
  job_id : Option Nat := none
  status : Status := .queued
  assigned_gpus : Option (List Nat) := none
  submit_time : Option Nat := none
  start_time : Option Nat := none
  end_time : Option Nat := none
  exit_code : Option Int := none
  pid : Option Nat := none
  output_file : Option String := none
  error_file : Option String := none
deriving DecidableEq, Repr

/-- Information about a GPU (dataclass `GPUInfo`). -/
structure GPUInfo where
  id : Nat
  name : String
  total_memory : Int
  used_memory : Int
  utilization : Int
  temperature : Int
  power_usage : Int
  power_limit : Int
  is_available : Bool := true
  assigned_job_id : Option Nat := none
deriving DecidableEq, Repr

/-- An entry of the priority queue: the tuple
`(-priority, submit_time, job_id)` pushed by `submit_job`. -/
structure QEntry where
  neg_priority : Int
  submit_time : Nat
  job_id : Nat
deriving DecidableEq, Repr

/-- Scheduler configuration (`min_free_memory` MB, `max_gpu_util` percent). -/
structure Config where
  min_free_memory : Int
  max_gpu_util : Int
deriving DecidableEq, Repr

/-- The job store: insertion-ordered map from job id to job record. -/
abbrev Jobs := List (Nat × Job)

/-- The GPU inventory: insertion-ordered map from gpu id to record. -/
abbrev Gpus := List (Nat × GPUInfo)

/-- The scheduler's mutable state guarded by `self.lock`. -/
structure State where
  jobs : Jobs
  queue : List QEntry
  next_job_id : Nat
  gpus : Gpus
deriving DecidableEq, Repr

/-- The freshly constructed scheduler: no jobs, empty queue, id counter 1,
no GPU records. -/
def initState : State := ⟨[], [], 1, []⟩

/-- Strict lexicographic order on queue keys, as python compares the
tuples `(-priority, submit_time, job_id)`. -/
def qLt (a b : QEntry) : Bool :=
  if a.neg_priority < b.neg_priority then true
  else if b.neg_priority < a.neg_priority then false
  else if a.submit_time < b.submit_time then true
  else if b.submit_time < a.submit_time then false
  else a.job_id < b.job_id

/-- `PriorityQueue.put`: sorted insertion (equal keys go after). -/
def qput (q : List QEntry) (e : QEntry) : List QEntry :=
  match q with
  | [] => [e]
  | x :: xs => if qLt e x then e :: x :: xs else x :: qput xs e

/-- Update the record stored under key `k` (in-place mutation of a job
object reached through the dict). -/
def updJob (jobs : Jobs) (k : Nat) (f : Job → Job) : Jobs :=
  jobs.map (fun e => if e.1 = k then (e.1, f e.2) else e)

/-- The `assigned_gpus` list of a job (`None` reads as the empty list,
matching python truthiness of the guards around every use). -/
def held (j : Job) : List Nat := j.assigned_gpus.getD []

/-- Apply `f` to the inventory record of each id in `ids` that is
present, one id at a time: the loops
`for gpu_id in ids: if gpu_id in self.gpus: <mutate self.gpus[gpu_id]>`. -/
def updateEachGpu : Gpus → List Nat → (GPUInfo → GPUInfo) → Gpus
  | gpus, [], _ => gpus
  | gpus, gid :: rest, f =>
    updateEachGpu
      (if gpus.any (fun q => q.1 == gid) then
        gpus.map (fun q => if q.1 = gid then (q.1, f q.2) else q)
      else gpus)
      rest f

/-- Release GPUs: `self.gpus[gpu_id].assigned_job_id = None` for each id
(used by `_check_running_jobs`, the failure branch of `_launch_job`, and
`cancel_job`). -/
def releaseGpus (gpus : Gpus) (ids : List Nat) : Gpus :=
  updateEachGpu gpus ids (fun gi => { gi with assigned_job_id := none })

/-- Mark GPUs assigned at launch: `is_available = False` and
`assigned_job_id = job.job_id` for each assigned id. -/
def markAssigned (gpus : Gpus) (ids : List Nat) (jid : Nat) : Gpus :=
  updateEachGpu gpus ids (fun gi => { gi with is_available := false, assigned_job_id := some jid })

/-- The free-GPU list a placement pass starts from:
`[gpu.id for gpu in self.gpus.values() if gpu.is_available]`. -/
def availableGpus (gpus : Gpus) : List Nat :=
  (gpus.filter (fun q => q.2.is_available)).map Prod.fst

/-- `submit_job`: assign the next id, default the name when falsy, store
the job as `queued` and push `(-priority, submit_time, job_id)`. -/
def submit_job (now : Nat) (cfg : JobConfig) (s : State) : Nat × State :=
  let jid := s.next_job_id
  let name0 : Option String :=
    match cfg.name with
    | none => some ("job-job" ++ toString jid)
    | some n => if n = "" then some ("job-job" ++ toString jid) else some n
  let job : Job :=
    { toJobConfig := { cfg with name := name0 }
      job_id := some jid
      status := .queued
      submit_time := some now }
  (jid,
    { s with
      next_job_id := jid + 1
      jobs := s.jobs ++ [(jid, job)]
      queue := qput s.queue ⟨-cfg.priority, now, jid⟩ })

/-- `get_job_status`: look the job up in the store (the `recent_output`
tail-read of the stdout file is outside the state model). -/
def get_job_status (jid : Nat) (s : State) : Option Job :=
  List.lookup jid s.jobs

/-- One row's per-job scan in `_update_gpu_info`: is this entry a running
job whose truthy `assigned_gpus` contains `g`? -/
def runningHolds (g : Nat) (e : Nat × Job) : Bool :=
  decide (e.2.status = .running) && !(held e.2).isEmpty && (held e.2).contains g

/-- The first running job (in store order) holding GPU `g`; mirrors the
`for job_id, job in self.jobs.items(): ... break` scan. -/
def firstRunningHolder (jobs : Jobs) (g : Nat) : Option Nat :=
  (jobs.find? (runningHolds g)).map Prod.fst

/-- Whitespace as python `str.strip` removes it. -/
def isSpaceChar (c : Char) : Bool := c = ' ' || c = '\t' || c = '\n' || c = '\r'

/-- Python `str.split(sep)` over the character list: splits at every
occurrence of `sep`, keeping empty pieces (`"".split(s)` is `[""]`). -/
def pySplitChar (sep : Char) : List Char → List (List Char)
  | [] => [[]]
  | c :: cs =>
    let r := pySplitChar sep cs
    if c = sep then [] :: r
    else
      match r with
      | [] => [[c]]
      | h :: t => (c :: h) :: t

/-- Python `str.split(sep)` for a one-character separator. -/
def pySplit (sep : Char) (s : String) : List String :=
  (pySplitChar sep s.data).map String.mk

/-- Python `str.strip()`: drop leading and trailing whitespace. -/
def pyStrip (s : String) : String :=
  String.mk (((s.data.dropWhile isSpaceChar).reverse.dropWhile isSpaceChar).reverse)

/-- Decimal digit-string value (`none` on empty or non-digit input). -/
def digitsToNat? (cs : List Char) : Option Nat :=
  cs.foldl
    (fun acc c =>
      match acc with
      | none => none
      | some n => if c.isDigit then some (n * 10 + (c.toNat - 48)) else none)
    (if cs.isEmpty then none else some 0)

/-- Python `int(s)` for the non-negative device index (`none` models the
raised `ValueError`; the probe contract makes indexes non-negative). -/
def pyNat? (s : String) : Option Nat := digitsToNat? s.data

/-- Python `int(float(s))` and `float(s)` on the integral strings of the
probe contract (`none` models the raised `ValueError`). -/
def pyInt? (s : String) : Option Int :=
  match s.data with
  | '-' :: rest => (digitsToNat? rest).map (fun n => -(n : Int))
  | l => (digitsToNat? l).map (fun n => (n : Int))

/-- Python dict assignment `self.gpus[gpu_id] = gpu_info`: overwrite in
place if the key exists, else append. -/
def alistSet (l : Gpus) (k : Nat) (v : GPUInfo) : Gpus :=
  if l.any (fun q => q.1 == k) then
    l.map (fun q => if q.1 = k then (k, v) else q)
  else l ++ [(k, v)]

/-- Parse one ≥8-field probe row into a `GPUInfo` (with
`is_available = True`, to be reconciled next); `none` models the raised
`ValueError` of a non-numeric field. -/
def parseRow (parts : List String) : Option (Nat × GPUInfo) :=
  match parts with
  | i :: nm :: tm :: um :: ut :: te :: pu :: pl :: _ =>
    match pyNat? i, pyInt? tm, pyInt? um, pyInt? ut, pyInt? te, pyInt? pu, pyInt? pl with
    | some gid, some tmv, some umv, some utv, some tev, some puv, some plv =>
      some (gid,
        { id := gid, name := nm, total_memory := tmv, used_memory := umv,
          utilization := utv, temperature := tev, power_usage := puv,
          power_limit := plv, is_available := true, assigned_job_id := none })
    | _, _, _, _, _, _, _ => none
  | _ => none

/-- Process one output line of the probe: split on commas and strip;
skip rows with fewer than eight fields; parse, reconcile against running
jobs, apply the free-memory and utilization thresholds, store the record.
`none` is a raised parse error. -/
def pollLine (cfg : Config) (jobs : Jobs) (line : String) (gpus : Gpus) : Option Gpus :=
  let parts := (pySplit ',' line).map pyStrip
  if parts.length < 8 then some gpus
  else
    match parseRow parts with
    | none => none
    | some (gid, gi0) =>
      let gi1 :=
        match firstRunningHolder jobs gid with
        | some jid => { gi0 with is_available := false, assigned_job_id := some jid }
        | none => gi0
      let freeMem := gi1.total_memory - gi1.used_memory
      let gi2 :=
        if (freeMem < cfg.min_free_memory ∨ gi1.utilization > cfg.max_gpu_util) ∧ gi1.assigned_job_id = none
        then { gi1 with is_available := false }
        else gi1
      some (alistSet gpus gid gi2)

/-- Process the probe's rows in order; a raised parse error aborts the
loop, keeping the rows already stored (the `except` is outside the loop). -/
def pollLines (cfg : Config) (jobs : Jobs) : List String → Gpus → Gpus
  | [], gpus => gpus
  | l :: rest, gpus =>
    match pollLine cfg jobs l gpus with
    | none => gpus
    | some g2 => pollLines cfg jobs rest g2

/-- `_update_gpu_info`: `probe = none` is a failed `nvidia-smi` call
(non-zero exit), which is caught and changes nothing; otherwise the
output is stripped, split into lines, and merged row by row. -/
def update_gpu_info (cfg : Config) (probe : Option String) (s : State) : State :=
  match probe with
  | none => s
  | some out => { s with gpus := pollLines cfg s.jobs (pySplit '\n' (pyStrip out)) s.gpus }

/-- The per-job transition of `_check_running_jobs`: a running job whose
pid is gone becomes `completed` with `end_time` and an exit code from the
non-blocking wait. -/
def reapJob (alive : Nat → Bool) (exitOf : Nat → Int) (now : Nat) (j : Job) : Job :=
  if j.status = .running then
    match j.pid with
    | some p =>
      if alive p then j
      else { j with status := .completed, end_time := some now, exit_code := some (exitOf p) }
    | none => j
  else j

/-- The assigned-GPU ids of all jobs reaped in this pass (their release
accumulates over the loop). -/
def reapDeadIds (alive : Nat → Bool) (jobs : Jobs) : List Nat :=
  jobs.foldl
    (fun acc e =>
      if e.2.status = .running then
        match e.2.pid with
        | some p => if alive p then acc else acc ++ held e.2
        | none => acc
      else acc)
    []

/-- `_check_running_jobs`: probe each running job's pid, complete the
dead ones and release their GPUs (`assigned_job_id = None` only). -/
def check_running_jobs (alive : Nat → Bool) (exitOf : Nat → Int) (now : Nat) (s : State) : State :=
  { s with
    jobs := s.jobs.map (fun e => (e.1, reapJob alive exitOf now e.2))
    gpus := releaseGpus s.gpus (reapDeadIds alive s.jobs) }

/-- Python `available_gpus.remove(gpu_id)` iterated over the assigned
ids: each call removes the first occurrence and raises `ValueError`
(`none`) when the id is no longer present.  A pinned job whose
`gpu_ids` repeats an id (unchecked at the API) makes this raise. -/
def pyRemoveAll : List Nat → List Nat → Option (List Nat)
  | avail, [] => some avail
  | avail, g :: rest => if g ∈ avail then pyRemoveAll (avail.erase g) rest else none

/-- Python slice `xs[:n]` for an int `n` (negative drops from the end). -/
def pyTake (n : Int) (xs : List Nat) : List Nat :=
  if 0 ≤ n then xs.take n.toNat else xs.take (xs.length - (-n).toNat)

/-- Truthiness of the `gpu_ids` field (`if job.gpu_ids:`). -/
def truthyIds : Option (List Nat) → Bool
  | none => false
  | some l => !l.isEmpty

/-- The feasibility decision of one queue entry in `_start_pending_jobs`
(lines 209–222): pinned jobs need all their ids free, unpinned jobs need
`num_gpus` free ids and take the first ones of the available list. -/
def placeDecision (avail : List Nat) (j : Job) : Option (List Nat) :=
  if truthyIds j.gpu_ids then
    let l := j.gpu_ids.getD []
    if l.all (fun g => avail.contains g) then some l else none
  else
    if (avail.length : Int) < j.num_gpus then none
    else some (pyTake j.num_gpus avail)

/-- The mutation `_launch_job` applies to the launched job record:
flip to `running`, stamp `start_time`, record `assigned_gpus` and the
output file paths; on success record the pid, on a raised launch error
flip to `failed` with `exit_code = -1` and `end_time`. -/
def launchTransform (pid0 : Option Nat) (now : Nat) (jid : Nat) (assigned : List Nat) (j : Job) : Job :=
  let j1 :=
    { j with
      status := .running
      start_time := some now
      assigned_gpus := some assigned
      output_file := some ("~/gpu-scheduler/output/job" ++ toString jid ++ "/stdout.txt")
      error_file := some ("~/gpu-scheduler/output/job" ++ toString jid ++ "/stderr.txt") }
  match pid0 with
  | some p => { j1 with pid := some p }
  | none => { j1 with status := .failed, exit_code := some (-1), end_time := some now }

/-- `_launch_job`: update the job record, mark the GPUs assigned; the
failure branch additionally releases `assigned_job_id` (but not
`is_available`). -/
def launchJob (pid0 : Option Nat) (now : Nat) (jid : Nat) (assigned : List Nat)
    (jobs : Jobs) (gpus : Gpus) : Jobs × Gpus :=
  (updJob jobs jid (launchTransform pid0 now jid assigned),
   match pid0 with
   | some _ => markAssigned gpus assigned jid
   | none => releaseGpus (markAssigned gpus assigned jid) assigned)

/-- Result of the placement pass: updated stores, the queue entries never
popped (left behind by `break`), and the deferred `tried_jobs`. -/
structure PlaceResult where
  jobs : Jobs
  gpus : Gpus
  remaining : List QEntry
  tried : List QEntry
deriving DecidableEq, Repr

/-- The `while not self.job_queue.empty():` loop of `_start_pending_jobs`:
pop entries, drop those whose job is no longer `queued`, defer infeasible
ones, launch feasible ones and remove their ids from the available list,
breaking when it empties.  When a removal raises (`pyRemoveAll` returns
`none` -- a launched pinned job with a duplicate id), the exception
aborts the pass as in the source: the launched job stays launched, the
entries not yet popped stay queued (`remaining`), and the local
`tried_jobs` list of deferred entries is lost (`tried` comes back
empty), so those entries are never reinserted. -/
def placeLoop (pid? : Nat → Option Nat) (now : Nat) :
    List QEntry → List Nat → List QEntry → Jobs → Gpus → PlaceResult
  | [], _avail, tried, jobs, gpus => ⟨jobs, gpus, [], tried⟩
  | e :: rest, avail, tried, jobs, gpus =>
    match List.lookup e.job_id jobs with
    | none => placeLoop pid? now rest avail tried jobs gpus
    | some job =>
      if job.status ≠ .queued then placeLoop pid? now rest avail tried jobs gpus
      else
        match placeDecision avail job with
        | none => placeLoop pid? now rest avail (tried ++ [e]) jobs gpus
        | some assigned =>
          let jg := launchJob (pid? e.job_id) now e.job_id assigned jobs gpus
          match pyRemoveAll avail assigned with
          | none => ⟨jg.1, jg.2, rest, []⟩
          | some avail1 =>
            if avail1.isEmpty then ⟨jg.1, jg.2, rest, tried⟩
            else placeLoop pid? now rest avail1 tried jg.1 jg.2

/-- `_start_pending_jobs`: return early when no GPU is available or the
queue is empty; otherwise run the pass and put the deferred entries back. -/
def start_pending_jobs (pid? : Nat → Option Nat) (now : Nat) (s : State) : State :=
  let avail := availableGpus s.gpus
  if avail.isEmpty then s
  else if s.queue.isEmpty then s
  else
    let r := placeLoop pid? now s.queue avail [] s.jobs s.gpus
    { s with jobs := r.jobs, gpus := r.gpus, queue := r.tried.foldl qput r.remaining }

/-- `cancel_job`: `sigOk` tells whether `os.killpg` succeeded; on a
raised signalling error nothing is updated and `False` is returned. -/
def cancel_job (sigOk : Bool) (now : Nat) (jid : Nat) (s : State) : Bool × State :=
  match List.lookup jid s.jobs with
  | none => (false, s)
  | some job =>
    if job.status = .running ∧ job.pid.isSome then
      if sigOk then
        (true,
          { s with
            jobs := updJob s.jobs jid (fun j => { j with status := .cancelled, end_time := some now })
            gpus := releaseGpus s.gpus (held job) })
      else (false, s)
    else if job.status = .queued then
      (true,
        { s with
          jobs := updJob s.jobs jid (fun j => { j with status := .cancelled, end_time := some now }) })
    else (false, s)

/-- One iteration of `_monitor_loop`: poll GPUs, reap running jobs, then
run placement. -/
def tick (cfg : Config) (probe : Option String) (alive : Nat → Bool) (exitOf : Nat → Int)
    (pid? : Nat → Option Nat) (now : Nat) (s : State) : State :=
  start_pending_jobs pid? now (check_running_jobs alive exitOf now (update_gpu_info cfg probe s))

/-- The `POST /jobs/<id>/cancel` route: 200 with success, else 400. -/
def do_POST_cancel (sigOk : Bool) (now : Nat) (jid : Nat) (s : State) : Nat × State :=
  let r := cancel_job sigOk now jid s
  (if r.1 then 200 else 400, r.2)

/-- One atomic operation on the scheduler state (each acquires the
central lock in the source). -/
inductive Step : State → State → Prop where
  | submit (now : Nat) (cfg : JobConfig) (s : State) : Step s (submit_job now cfg s).2
  | poll (cfg : Config) (probe : Option String) (s : State) : Step s (update_gpu_info cfg probe s)
  | reap (alive : Nat → Bool) (exitOf : Nat → Int) (now : Nat) (s : State) :
      Step s (check_running_jobs alive exitOf now s)
  | place (pid? : Nat → Option Nat) (now : Nat) (s : State) : Step s (start_pending_jobs pid? now s)
  | cancel (sigOk : Bool) (now : Nat) (jid : Nat) (s : State) : Step s (cancel_job sigOk now jid s).2

/-- States the scheduler can reach from startup. -/
def Reachable (s : State) : Prop := Relation.ReflTransGen Step initState s

/-! The wire layer.  `do_POST` feeds the decoded JSON object directly to
the `JobConfig` dataclass constructor (`JobConfig(**job_config)`), which
performs no type checking: the only failures are a JSON decode error or
a `TypeError` (missing `command`, or an unexpected keyword), and both
are caught by the generic handler that answers 500.  Field values are
therefore modelled as dynamically typed JSON values. -/

/-- A decoded JSON value. -/
inductive JValue where
  | jnull
  | jbool (b : Bool)
  | jint (n : Int)
  | jstr (s : String)
  | jlist (l : List JValue)

/-- Python truthiness of a JSON value. -/
def pyTruthy : JValue → Bool
  | .jnull => false
  | .jbool b => b
  | .jint n => n != 0
  | .jstr s => s ≠ ""
  | .jlist l => !l.isEmpty

/-- A `JobConfig` as the constructor call builds it: every field holds
whatever JSON value the client sent, with the dataclass defaults. -/
structure RawConfig where
  command : JValue
  gpu_ids : JValue := .jnull
  num_gpus : JValue := .jint 1
  memory_limit : JValue := .jint 5
  env : JValue := .jnull
  working_dir : JValue := .jnull
  name : JValue := .jnull
  priority : JValue := .jint 0

/-- The keyword parameters `JobConfig(**kwargs)` accepts. -/
def knownKeys : List String :=
  ["command", "gpu_ids", "num_gpus", "memory_limit", "env", "working_dir", "name", "priority"]

/-- Value of key `k` in the decoded JSON object. -/
def getField (fields : List (String × JValue)) (k : String) : Option JValue :=
  List.lookup k fields

/-- `JobConfig(**job_config)`: raises `TypeError` (`none`) when a key is
not a dataclass field or the required `command` is missing; no value is
validated. -/
def mkJobConfig (fields : List (String × JValue)) : Option RawConfig :=
  if fields.any (fun f => !(knownKeys.contains f.1)) then none
  else
    match getField fields "command" with
    | none => none
    | some c =>
      some
        { command := c
          gpu_ids := (getField fields "gpu_ids").getD .jnull
          num_gpus := (getField fields "num_gpus").getD (.jint 1)
          memory_limit := (getField fields "memory_limit").getD (.jint 5)
          env := (getField fields "env").getD .jnull
          working_dir := (getField fields "working_dir").getD .jnull
          name := (getField fields "name").getD .jnull
          priority := (getField fields "priority").getD (.jint 0) }

/-- A stored job at the wire layer. -/
structure RawJob where
  config : RawConfig
  job_id : Nat
  status : Status
  submit_time : Nat

/-- The job store as the wire layer sees it. -/
structure RawState where
  jobs : List (Nat × RawJob)
  next_job_id : Nat

/-- The wire-layer view of `submit_job`: assign the id, default a falsy
name, store the record as `queued`. -/
def rawSubmit (now : Nat) (cfg : RawConfig) (st : RawState) : Nat × RawState :=
  let jid := st.next_job_id
  let name0 := if pyTruthy cfg.name then cfg.name else .jstr ("job-job" ++ toString jid)
  (jid,
    ⟨st.jobs ++ [(jid, ⟨{ cfg with name := name0 }, jid, .queued, now⟩)], jid + 1⟩)

/-- The `POST /jobs` route: a JSON decode error (`body = none`) or a
`TypeError` from the constructor is caught and answered 500; any
successfully constructed config is submitted and answered 200. -/
def do_POST_jobs (now : Nat) (body : Option (List (String × JValue))) (st : RawState) :
    Nat × RawState :=
  match body with
  | none => (500, st)
  | some fields =>
    match mkJobConfig fields with
    | none => (500, st)
    | some cfg => (200, (rawSubmit now cfg st).2)

/-! Concrete fixtures used by witnesses and counterexamples.  They are
built by running the operations themselves, so each is reachable by
construction. -/

/-- Thresholds used by the fixtures: defaults 1000 MB, 10 percent. -/
def cfg0 : Config := ⟨1000, 10⟩

/-- A probe snapshot with one idle GPU of index 0. -/
def probeOne : String := "0, NVIDIA A100, 10000, 0, 0, 40, 100, 200"

/-- A probe snapshot whose rows arrive in descending index order. -/
def probeDesc : String :=
  "1, G1, 10000, 0, 0, 40, 100, 200\n0, G0, 10000, 0, 0, 40, 100, 200"

/-- A probe snapshot whose first row is fine and whose second row has
eight fields but a non-numeric index. -/
def probeBad : String :=
  "0, G, 5000, 0, 0, 40, 100, 200\nx, G, 5000, 0, 0, 40, 100, 200"

/-- A submission asking for one GPU. -/
def jcSleep : JobConfig := { command := "sleep 600" }

/-- A second submission asking for one GPU. -/
def jcEcho : JobConfig := { command := "echo hi" }

/-- After one successful poll: inventory has the idle GPU 0. -/
def sPolled : State := update_gpu_info cfg0 (some probeOne) initState

/-- After submitting one job on top of `sPolled`. -/
def sQueued : State := (submit_job 0 jcSleep sPolled).2

/-- After the placement pass launches job 1 on GPU 0 with pid 55. -/
def sRun : State := start_pending_jobs (fun _ => some 55) 1 sQueued

/-- `sRun` with a second one-GPU job submitted and still queued. -/
def sRun2 : State := (submit_job 2 jcEcho sRun).2

/-- The job record of job 1 in `sRun` (running on GPU 0, pid 55). -/
def jRun : Job :=
  { command := "sleep 600", gpu_ids := none, num_gpus := 1, memory_limit := 5,
    env := none, working_dir := none, name := some "job-job1", priority := 0,
    job_id := some 1, status := .running, assigned_gpus := some [0],
    submit_time := some 0, start_time := some 1, end_time := none,
    exit_code := none, pid := some 55,
    output_file := some "~/gpu-scheduler/output/job1/stdout.txt",
    error_file := some "~/gpu-scheduler/output/job1/stderr.txt" }

/-- A job pinned to GPU 0. -/
def jPin : Job := { command := "train", gpu_ids := some [0] }

/-- Inventory polled from the descending-order probe snapshot. -/
def tDesc : State := update_gpu_info cfg0 (some probeDesc) initState

/-- `tDesc` with one unpinned one-GPU job submitted. -/
def tDescQ : State := (submit_job 0 jcEcho tDesc).2

/-- `tDescQ` after the placement pass (launch pid 5). -/
def tDescR : State := start_pending_jobs (fun _ => some 5) 1 tDescQ

/-- A probe snapshot with two idle GPUs, in ascending order. -/
def probeTwo : String :=
  "0, G0, 10000, 0, 0, 40, 100, 200\n1, G1, 10000, 0, 0, 40, 100, 200"

/-- An infeasible three-GPU submission (will be deferred). -/
def jcBig : JobConfig := { command := "big", num_gpus := 3 }

/-- A submission pinned to the duplicated id list `[0, 0]` (the API
validates nothing, so it is accepted). -/
def jcDupPin : JobConfig := { command := "dup", gpu_ids := some [0, 0] }

/-- Two idle GPUs polled into the fresh state. -/
def sDup0 : State := update_gpu_info cfg0 (some probeTwo) initState

/-- `sDup0` with the infeasible job 1 submitted. -/
def sDup1 : State := (submit_job 0 jcBig sDup0).2

/-- `sDup1` with the duplicate-pinned job 2 submitted. -/
def sDup2 : State := (submit_job 1 jcDupPin sDup1).2

/-- The pass on `sDup2`: job 1 is deferred, job 2 launches, the removal
of its duplicated id raises, and the pass aborts dropping the deferred
entry -- job 1 stays `queued` but is gone from the queue. -/
def sDupR : State := start_pending_jobs (fun _ => some 9) 2 sDup2

/-- The legal direct status transitions: the edges of the DAG
`queued → running → (completed | failed | cancelled)` together with the
direct edge `queued → cancelled`. -/
def statusEdge : Status → Status → Prop := fun a b =>
  (a = .queued ∧ b = .running) ∨ (a = .running ∧ b = .completed)
  ∨ (a = .running ∧ b = .failed) ∨ (a = .running ∧ b = .cancelled)
  ∨ (a = .queued ∧ b = .cancelled)

/-- Paths (of any length, including empty) through the status DAG. -/
def StatusPath : Status → Status → Prop := Relation.ReflTransGen statusEdge

/-- How one scheduler operation may evolve a stored job entry: the key
and the submitted configuration are preserved and the status moves along
a DAG path. -/
def JobEvolve (a b : Nat × Job) : Prop :=
  b.1 = a.1 ∧ b.2.toJobConfig = a.2.toJobConfig ∧ StatusPath a.2.status b.2.status

/-- No GPU id is held by two running jobs with distinct ids. -/
def ExclusiveJobs (jobs : Jobs) : Prop :=
  ∀ a ∈ jobs, ∀ b ∈ jobs, a.1 ≠ b.1 →
    a.2.status = .running → b.2.status = .running →
    ∀ g ∈ held a.2, g ∉ held b.2

/-- The GPU-exclusivity property of claim C1, on a scheduler state. -/
def GpuExclusive (s : State) : Prop := ExclusiveJobs s.jobs

/-- Every inventory record of a GPU held by a running job is marked
unavailable. -/
def HeldUnavailable (jobs : Jobs) (gpus : Gpus) : Prop :=
  ∀ a ∈ jobs, a.2.status = .running →
    ∀ g ∈ held a.2, ∀ q ∈ gpus, q.1 = g → q.2.is_available = false

/-- Bookkeeping invariant: job keys are unique and below the counter,
GPU keys are unique. -/
def KeysOk (s : State) : Prop :=
  (s.jobs.map Prod.fst).Nodup ∧ (∀ e ∈ s.jobs, e.1 < s.next_job_id)
  ∧ (s.gpus.map Prod.fst).Nodup

/-- The inductive invariant carried through every operation. -/
def Inv (s : State) : Prop := GpuExclusive s ∧ HeldUnavailable s.jobs s.gpus ∧ KeysOk s

/-- The free list handed through a placement pass: every id on it names
an existing inventory record, and every record under such an id is
currently marked available. -/
def AvailOk (gpus : Gpus) (avail : List Nat) : Prop :=
  ∀ g ∈ avail, (∃ q ∈ gpus, q.1 = g) ∧ (∀ q ∈ gpus, q.1 = g → q.2.is_available = true)

/-! Helper lemmas about the list-level operations. -/

/-- `sRun` is reached by poll, submit, place. -/
theorem sRun_reachable : Reachable sRun :=
  Relation.ReflTransGen.tail
    (Relation.ReflTransGen.tail
      (Relation.ReflTransGen.tail Relation.ReflTransGen.refl
        (Step.poll cfg0 (some probeOne) initState))
      (Step.submit 0 jcSleep sPolled))
    (Step.place (fun _ => some 55) 1 sQueued)

/-- `sRun2` is reached by one more submission. -/
theorem sRun2_reachable : Reachable sRun2 :=
  Relation.ReflTransGen.tail sRun_reachable (Step.submit 2 jcEcho sRun)

/-- The per-id update loop is a single map over the inventory when the
per-record update is idempotent. -/
theorem updateEachGpu_eq_map (gpus : Gpus) (ids : List Nat) (f : GPUInfo → GPUInfo)
    (hf : ∀ x, f (f x) = f x) :
    updateEachGpu gpus ids f = gpus.map (fun q => if q.1 ∈ ids then (q.1, f q.2) else q) := by
  induction ids generalizing gpus with
  | nil =>
    simp [updateEachGpu]
  | cons i rest ih =>
    have hstep :
        (if gpus.any (fun q => q.1 == i) then
            gpus.map (fun q => if q.1 = i then (q.1, f q.2) else q)
          else gpus)
          = gpus.map (fun q => if q.1 = i then (q.1, f q.2) else q) := by
      split
      · rfl
      · next h =>
        have h' := List.any_eq_false.mp (Bool.eq_false_iff.mpr h)
        have hmap : gpus.map (fun q => if q.1 = i then (q.1, f q.2) else q) = gpus := by
          have := List.map_congr_left (l := gpus)
            (f := fun q : Nat × GPUInfo => if q.1 = i then (q.1, f q.2) else q) (g := id) ?_
          · simpa using this
          · intro q hq
            have : ¬ q.1 = i := by
              intro he
              exact absurd (by simpa using he) (by simpa using h' q hq)
            simp [this]
        exact hmap.symm
    have hrec : updateEachGpu gpus (i :: rest) f
        = updateEachGpu (gpus.map (fun q => if q.1 = i then (q.1, f q.2) else q)) rest f := by
      rw [updateEachGpu, hstep]
    rw [hrec, ih, List.map_map]
    refine List.map_congr_left ?_
    intro q _
    by_cases hqi : q.1 = i
    · by_cases hir : i ∈ rest
      · simp [Function.comp, hqi, hir, hf]
      · simp [Function.comp, hqi, hir]
    · by_cases hqr : q.1 ∈ rest
      · simp [Function.comp, hqi, hqr]
      · simp [Function.comp, hqi, hqr]

/-- Releasing is a pointwise map clearing `assigned_job_id`. -/
theorem releaseGpus_eq_map (gpus : Gpus) (ids : List Nat) :
    releaseGpus gpus ids
      = gpus.map (fun q => if q.1 ∈ ids then (q.1, { q.2 with assigned_job_id := none }) else q) :=
  updateEachGpu_eq_map gpus ids _ (fun _ => rfl)

/-- Marking assigned is a pointwise map. -/
theorem markAssigned_eq_map (gpus : Gpus) (ids : List Nat) (jid : Nat) :
    markAssigned gpus ids jid
      = gpus.map (fun q =>
          if q.1 ∈ ids then (q.1, { q.2 with is_available := false, assigned_job_id := some jid })
          else q) :=
  updateEachGpu_eq_map gpus ids _ (fun _ => rfl)

/-- Releasing GPUs never changes which GPUs count as available. -/
theorem availableGpus_releaseGpus (gpus : Gpus) (ids : List Nat) :
    availableGpus (releaseGpus gpus ids) = availableGpus gpus := by
  rw [releaseGpus_eq_map]
  induction gpus with
  | nil => rfl
  | cons q l ih =>
    by_cases hq : q.1 ∈ ids
    · by_cases ha : q.2.is_available
      · simp [availableGpus, List.filter_cons, hq, ha] at ih ⊢
        exact ih
      · simp [availableGpus, List.filter_cons, hq, ha] at ih ⊢
        exact ih
    · by_cases ha : q.2.is_available
      · simp [availableGpus, List.filter_cons, hq, ha] at ih ⊢
        exact ih
      · simp [availableGpus, List.filter_cons, hq, ha] at ih ⊢
        exact ih

/-- Looking up the updated key maps the stored value. -/
theorem lookup_updJob (jobs : Jobs) (k : Nat) (f : Job → Job) :
    List.lookup k (updJob jobs k f) = (List.lookup k jobs).map f := by
  induction jobs with
  | nil => rfl
  | cons e l ih =>
    simp only [updJob, List.map_cons]
    by_cases he : e.1 = k
    · rw [if_pos he]
      simp [List.lookup, he]
    · rw [if_neg he]
      have hk : (k == e.1) = false := beq_eq_false_iff_ne.mpr (fun h => he h.symm)
      simp only [List.lookup, hk]
      exact ih

/-- Looking up a fresh key appended at the back. -/
theorem lookup_append_fresh (l : Jobs) (k : Nat) (v : Job) (h : ∀ e ∈ l, e.1 ≠ k) :
    List.lookup k (l ++ [(k, v)]) = some v := by
  induction l with
  | nil => simp [List.lookup]
  | cons e t ih =>
    have he : e.1 ≠ k := h e (List.mem_cons_self e t)
    have hk : (k == e.1) = false := beq_eq_false_iff_ne.mpr (fun hh => he hh.symm)
    simp only [List.cons_append, List.lookup, hk]
    exact ih (fun x hx => h x (List.mem_cons_of_mem e hx))

/-- C10: releasing a job's GPUs (in reap, in cancel of a running job, and
in the launch-failure branch) rewrites each released GPU record to the
same record with `assigned_job_id := none` and leaves every other record
and every other field — in particular `is_available` — untouched, so a
released GPU stays unavailable until the next successful poll; the third
and fourth conjuncts exhibit the reap and launch-failure sites calling
this release. -/
theorem release_only_clears_assignment :
    (∀ (gpus : Gpus) (ids : List Nat),
      releaseGpus gpus ids
        = gpus.map (fun q =>
            if q.1 ∈ ids then (q.1, { q.2 with assigned_job_id := none }) else q))
    ∧ (∀ (gpus : Gpus) (ids : List Nat),
      (releaseGpus gpus ids).map (fun q => (q.1, q.2.is_available))
        = gpus.map (fun q => (q.1, q.2.is_available)))
    ∧ (∀ alive exitOf now s,
      (check_running_jobs alive exitOf now s).gpus
        = releaseGpus s.gpus (reapDeadIds alive s.jobs))
    ∧ (∀ now jid assigned jobs gpus,
      (launchJob none now jid assigned jobs gpus).2
        = releaseGpus (markAssigned gpus assigned jid) assigned) := by
  refine ⟨releaseGpus_eq_map, ?_, fun _ _ _ _ => rfl, fun _ _ _ _ _ => rfl⟩
  intro gpus ids
  rw [releaseGpus_eq_map, List.map_map]
  refine List.map_congr_left ?_
  intro q _
  by_cases hq : q.1 ∈ ids
  · simp [Function.comp, hq]
  · simp [Function.comp, hq]

/-- C3 (amended): within a tick the order is poll, then reap, then
placement; but reap only clears `assigned_job_id` and never flips
`is_available`, so the free-GPU set the placement step computes is
exactly the one the poll left behind — the GPUs of a job found dead this
tick do NOT join the free set until the next successful poll. -/
theorem tick_order_and_reap_free_set :
    (∀ cfg probe alive exitOf pid? now s,
      tick cfg probe alive exitOf pid? now s
        = start_pending_jobs pid? now (check_running_jobs alive exitOf now (update_gpu_info cfg probe s)))
    ∧ (∀ alive exitOf now s,
      availableGpus (check_running_jobs alive exitOf now s).gpus = availableGpus s.gpus) :=
  ⟨fun _ _ _ _ _ _ _ => rfl,
   fun alive _ _ s => availableGpus_releaseGpus s.gpus (reapDeadIds alive s.jobs)⟩

/-- C3 counterexample: in `sRun2` job 1 runs on GPU 0 with pid 55 and
job 2 (needing one GPU) is queued.  Run one tick in which the probe
fails (snapshot retained) and pid 55 is dead: reap completes job 1 and
clears GPU 0's `assigned_job_id`, yet the free set seen by the same
tick's placement is empty and job 2 is still `queued` after the tick —
the freed GPU was not visible to placement in the same tick. -/
theorem reap_frees_not_visible_same_tick_cex :
    (List.lookup 1 (check_running_jobs (fun _ => false) (fun _ => 0) 3
        (update_gpu_info cfg0 none sRun2)).jobs).map Job.status = some .completed
    ∧ (List.lookup 0 (check_running_jobs (fun _ => false) (fun _ => 0) 3
        (update_gpu_info cfg0 none sRun2)).gpus).map GPUInfo.assigned_job_id = some none
    ∧ availableGpus (check_running_jobs (fun _ => false) (fun _ => 0) 3
        (update_gpu_info cfg0 none sRun2)).gpus = []
    ∧ (List.lookup 2 (tick cfg0 none (fun _ => false) (fun _ => 0) (fun _ => some 77) 3 sRun2).jobs).map
        Job.status = some .queued := by
  refine ⟨?_, ?_, ?_, ?_⟩ <;> decide

/-- C8 (amended): a failed probe (non-zero exit of the external command)
leaves the whole state unchanged; a row with fewer than eight
comma-separated fields is skipped without affecting the other rows; but
a row that fails numeric parsing aborts the update loop keeping the rows
already merged — shown by the accompanying counterexample — rather than
restoring the pre-poll inventory. -/
theorem poll_error_handling :
    (∀ cfg s, update_gpu_info cfg none s = s)
    ∧ (∀ cfg jobs line rest gpus, ((pySplit ',' line).map pyStrip).length < 8 →
        pollLines cfg jobs (line :: rest) gpus = pollLines cfg jobs rest gpus)
    ∧ (∀ cfg jobs line rest gpus, pollLine cfg jobs line gpus = none →
        pollLines cfg jobs (line :: rest) gpus = gpus) := by
  refine ⟨fun _ _ => rfl, ?_, ?_⟩
  · intro cfg jobs line rest gpus h
    have hline : pollLine cfg jobs line gpus = some gpus := by
      unfold pollLine
      rw [if_pos h]
    rw [pollLines, hline]
  · intro cfg jobs line rest gpus h
    rw [pollLines, h]

/-- C8 counterexample: the probe output `probeBad` has a good first row
and a second row with eight fields but a non-numeric index, so the
output as a whole cannot be parsed; yet the poll does not leave the
inventory as it was — the first row's record is merged before the error
aborts the loop. -/
theorem poll_partial_update_cex :
    (update_gpu_info cfg0 (some probeBad) initState).gpus
      = [(0, ⟨0, "G", 5000, 0, 0, 40, 100, 200, true, none⟩)]
    ∧ update_gpu_info cfg0 (some probeBad) initState ≠ initState := by
  refine ⟨by decide, by decide⟩

/-- C8 witness: a two-field row is skipped; a row with a non-numeric
index is a parse error that aborts, keeping the accumulated map. -/
theorem poll_error_handling_witness :
    pollLines cfg0 [] ("a,b" :: []) [] = pollLines cfg0 [] [] []
    ∧ pollLines cfg0 [] ("x, G, 5000, 0, 0, 40, 100, 200" :: ["0, G, 1, 1, 1, 1, 1, 1"]) [] = [] :=
  ⟨poll_error_handling.2.1 cfg0 [] "a,b" [] [] (by decide),
   poll_error_handling.2.2 cfg0 [] "x, G, 5000, 0, 0, 40, 100, 200" ["0, G, 1, 1, 1, 1, 1, 1"] [] (by decide)⟩

/-- C6 (amended): `cancel_job` returns `False` both for an unknown job id
and for a job already in a terminal state, and the route answers 400 to
every `False`; the two error cases are therefore NOT distinguishable by
status code — an unknown id also yields 400, not 404. -/
theorem cancel_error_codes :
    (∀ sigOk now jid s, List.lookup jid s.jobs = none →
      do_POST_cancel sigOk now jid s = (400, s))
    ∧ (∀ sigOk now jid s j, List.lookup jid s.jobs = some j →
      (j.status = .completed ∨ j.status = .failed ∨ j.status = .cancelled) →
      do_POST_cancel sigOk now jid s = (400, s)) := by
  constructor
  · intro sigOk now jid s h
    have hc : cancel_job sigOk now jid s = (false, s) := by
      unfold cancel_job
      rw [h]
    simp [do_POST_cancel, hc]
  · intro sigOk now jid s j h hterm
    have h1 : ¬ (j.status = .running ∧ j.pid.isSome = true) := by
      rcases hterm with h2 | h2 | h2 <;> simp [h2]
    have h2 : ¬ j.status = .queued := by
      rcases hterm with h2 | h2 | h2 <;> simp [h2]
    have hc : cancel_job sigOk now jid s = (false, s) := by
      unfold cancel_job
      rw [h]
      dsimp only
      rw [if_neg h1, if_neg h2]
    simp [do_POST_cancel, hc]

/-- C6 counterexample: cancelling a job id that does not exist answers
400 (the route maps every `cancel_job` failure to 400), not the 404 the
claim requires, so the two error cases share a status code. -/
theorem cancel_unknown_code_cex :
    (do_POST_cancel true 0 1 initState).1 = 400 ∧ (400 : Nat) ≠ 404 :=
  ⟨rfl, by decide⟩

/-- C6 witness: the amended theorem applied to the unknown id 1 in the
fresh state and to the terminal (completed) job of a reaped state. -/
theorem cancel_error_codes_witness :
    do_POST_cancel true 0 1 initState = (400, initState) :=
  cancel_error_codes.1 true 0 1 initState rfl

/-- C7 (amended): for a cancel of a running job with a recorded pid:
when the group-termination signal succeeds the job becomes `cancelled`
with `end_time` stamped, its GPUs are released, and the call reports
success; but when signalling raises, the handler returns `False` with
the state unchanged — the job stays `running` and no success is
reported (the state update is inside the `try`, after the signal). -/
theorem cancel_running_behavior :
    ∀ s jid j now, List.lookup jid s.jobs = some j → j.status = .running →
      j.pid.isSome = true →
      ((cancel_job true now jid s).1 = true
        ∧ List.lookup jid (cancel_job true now jid s).2.jobs
            = some { j with status := .cancelled, end_time := some now }
        ∧ (cancel_job true now jid s).2.gpus = releaseGpus s.gpus (held j))
      ∧ cancel_job false now jid s = (false, s) := by
  intro s jid j now hlook hrun hpid
  have hct : cancel_job true now jid s
      = (true,
        { s with
          jobs := updJob s.jobs jid (fun j0 => { j0 with status := .cancelled, end_time := some now })
          gpus := releaseGpus s.gpus (held j) }) := by
    unfold cancel_job
    rw [hlook]
    dsimp only
    rw [if_pos ⟨hrun, hpid⟩, if_pos rfl]
  have hcf : cancel_job false now jid s = (false, s) := by
    unfold cancel_job
    rw [hlook]
    dsimp only
    rw [if_pos ⟨hrun, hpid⟩]
    rfl
  refine ⟨⟨by rw [hct], ?_, by rw [hct]⟩, hcf⟩
  rw [hct]
  dsimp only
  rw [lookup_updJob, hlook]
  rfl

/-- C7 counterexample: in `sRun` job 1 is running with pid 55; a cancel
whose group-termination signal raises returns `False` and leaves the
state untouched — the job is still `running`, no `end_time` is stamped,
no GPU is released, and no success is reported, contradicting the claim
that the state update and success survive a signalling error. -/
theorem cancel_signal_failure_cex :
    cancel_job false 9 1 sRun = (false, sRun)
    ∧ (List.lookup 1 sRun.jobs).map Job.status = some .running := by
  exact ⟨by decide, by decide⟩

/-- C7 witness: the amended theorem applied to the running job 1 of
`sRun`. -/
theorem cancel_running_behavior_witness :
    ((cancel_job true 9 1 sRun).1 = true
      ∧ List.lookup 1 (cancel_job true 9 1 sRun).2.jobs
          = some { jRun with status := .cancelled, end_time := some 9 }
      ∧ (cancel_job true 9 1 sRun).2.gpus = releaseGpus sRun.gpus (held jRun))
    ∧ cancel_job false 9 1 sRun = (false, sRun) :=
  cancel_running_behavior sRun 1 jRun 9 (by decide) (by decide) (by decide)

/-- C5 (amended): the `POST /jobs` route performs no field validation.
A body that is not valid JSON, lacks `command`, or carries an unknown
key raises inside the handler and is answered 500 (not 400) with no job
created; any body the dataclass constructor accepts — including one with
a non-positive `num_gpus` or an arbitrarily typed `gpu_ids` — is
answered 200 and a job IS created. -/
theorem post_jobs_behavior :
    (∀ now st, do_POST_jobs now none st = (500, st))
    ∧ (∀ now st fields, getField fields "command" = none →
        do_POST_jobs now (some fields) st = (500, st))
    ∧ (∀ now st fields f0, f0 ∈ fields → knownKeys.contains f0.1 = false →
        do_POST_jobs now (some fields) st = (500, st))
    ∧ (∀ now st fields cfg, mkJobConfig fields = some cfg →
        (do_POST_jobs now (some fields) st).1 = 200
        ∧ (do_POST_jobs now (some fields) st).2.jobs.length = st.jobs.length + 1) := by
  refine ⟨fun _ _ => rfl, ?_, ?_, ?_⟩
  · intro now st fields h
    have hmk : mkJobConfig fields = none := by
      unfold mkJobConfig
      split
      · rfl
      · rw [h]
    unfold do_POST_jobs
    dsimp only
    rw [hmk]
  · intro now st fields f0 hmem hkey
    have hany : fields.any (fun f => !(knownKeys.contains f.1)) = true :=
      List.any_eq_true.mpr ⟨f0, hmem, by rw [hkey]; rfl⟩
    have hmk : mkJobConfig fields = none := by
      unfold mkJobConfig
      rw [if_pos hany]
    unfold do_POST_jobs
    dsimp only
    rw [hmk]
  · intro now st fields cfg hmk
    unfold do_POST_jobs
    dsimp only
    rw [hmk]
    exact ⟨rfl, by simp [rawSubmit]⟩

/-- C5 counterexample: a submission with `num_gpus = -1` (non-positive)
is accepted: the route answers 200 — not 400 — and a job is created and
stored with the invalid value. -/
theorem post_jobs_validation_cex :
    do_POST_jobs 0 (some [("command", .jstr "echo hi"), ("num_gpus", .jint (-1))]) ⟨[], 1⟩
      = (200, ⟨[(1, ⟨⟨.jstr "echo hi", .jnull, .jint (-1), .jint 5, .jnull, .jnull,
          .jstr "job-job1", .jint 0⟩, 1, .queued, 0⟩)], 2⟩)
    ∧ (200 : Nat) ≠ 400 :=
  ⟨rfl, by decide⟩

/-- C5 witness: a body missing `command` is answered 500 with no job
created, and a well-formed body (with a string-typed `gpu_ids`, which is
malformed but unchecked) is answered 200 with a job created. -/
theorem post_jobs_behavior_witness :
    do_POST_jobs 0 (some [("num_gpus", .jint 2)]) ⟨[], 1⟩ = (500, ⟨[], 1⟩)
    ∧ (do_POST_jobs 0 (some [("command", .jstr "c"), ("gpu_ids", .jstr "abc")]) ⟨[], 1⟩).1 = 200
    ∧ (do_POST_jobs 0 (some [("command", .jstr "c"), ("gpu_ids", .jstr "abc")]) ⟨[], 1⟩).2.jobs.length
        = ([] : List (Nat × RawJob)).length + 1 :=
  ⟨post_jobs_behavior.2.1 0 ⟨[], 1⟩ [("num_gpus", .jint 2)] rfl,
   (post_jobs_behavior.2.2.2 0 ⟨[], 1⟩ [("command", .jstr "c"), ("gpu_ids", .jstr "abc")] _ rfl).1,
   (post_jobs_behavior.2.2.2 0 ⟨[], 1⟩ [("command", .jstr "c"), ("gpu_ids", .jstr "abc")] _ rfl).2⟩

/-- A successful removal loop computes the same list as erasing each id
in turn. -/
theorem pyRemoveAll_eq_foldl :
    ∀ {assigned avail v : List Nat}, pyRemoveAll avail assigned = some v →
      v = assigned.foldl List.erase avail := by
  intro assigned
  induction assigned with
  | nil =>
    intro avail v h
    have h2 : some avail = some v := h
    cases h2
    rfl
  | cons g rest ih =>
    intro avail v h
    unfold pyRemoveAll at h
    by_cases hg : g ∈ avail
    · rw [if_pos hg] at h
      rw [List.foldl_cons]
      exact ih h
    · rw [if_neg hg] at h
      cases h

/-- Duplicate-free assigned ids drawn from the available list always
remove cleanly. -/
theorem pyRemoveAll_of_nodup :
    ∀ {assigned avail : List Nat}, assigned.Nodup → (∀ g ∈ assigned, g ∈ avail) →
      pyRemoveAll avail assigned = some (assigned.foldl List.erase avail) := by
  intro assigned
  induction assigned with
  | nil =>
    intro avail _ _
    rfl
  | cons g rest ih =>
    intro avail hnd hsub
    have hnd2 := List.nodup_cons.mp hnd
    unfold pyRemoveAll
    rw [if_pos (hsub g (List.mem_cons_self g rest))]
    rw [List.foldl_cons]
    refine ih hnd2.2 ?_
    intro g2 hg2
    have hne : g2 ≠ g := by
      intro hq
      rw [hq] at hg2
      exact hnd2.1 hg2
    exact (List.mem_erase_of_ne hne).mpr (hsub g2 (List.mem_cons_of_mem g hg2))

/-- C4 (amended): in a placement pass over the free list `F`: a job with
a truthy `gpu_ids` is feasible iff all those ids are in `F` and is then
assigned exactly `gpu_ids`; a job without `gpu_ids` is feasible iff
`|F| ≥ num_gpus` and is then assigned the first `num_gpus` ids of `F` in
the INVENTORY (probe-row) order in which the free list was built — not
necessarily ascending id order; the deferred entries keep their original
relative order (a sublist of the queue) and the untouched queue tail (a
suffix) remains when the pass stops; removing a launched job's assigned
ids from `F` succeeds whenever they are duplicate-free (fifth conjunct),
and the deferred entries are then reinserted — but a launched pinned job
whose `gpu_ids` repeats an id makes `list.remove` raise, aborting the
pass: the deferred entries come back empty, so they are permanently
dropped and only the unpopped queue tail survives (sixth conjunct; the
witness runs this loss on a concrete queue). -/
theorem placement_pass_rules :
    (∀ (avail : List Nat) (j : Job) (l : List Nat), j.gpu_ids = some l → l ≠ [] →
      ((∀ g ∈ l, g ∈ avail) → placeDecision avail j = some l)
      ∧ ((¬ ∀ g ∈ l, g ∈ avail) → placeDecision avail j = none))
    ∧ (∀ (avail : List Nat) (j : Job), j.gpu_ids = none →
      ((j.num_gpus ≤ (avail.length : Int)) → placeDecision avail j = some (pyTake j.num_gpus avail))
      ∧ (((avail.length : Int) < j.num_gpus) → placeDecision avail j = none))
    ∧ (∀ pid? now q avail tried jobs gpus,
      (placeLoop pid? now q avail tried jobs gpus).tried.Sublist (tried ++ q))
    ∧ (∀ pid? now q avail tried jobs gpus,
      (placeLoop pid? now q avail tried jobs gpus).remaining.IsSuffix q)
    ∧ (∀ avail assigned : List Nat, assigned.Nodup → (∀ g ∈ assigned, g ∈ avail) →
      pyRemoveAll avail assigned = some (assigned.foldl List.erase avail))
    ∧ (∀ pid? now e rest avail tried jobs gpus job assigned,
      List.lookup e.job_id jobs = some job → job.status = .queued →
      placeDecision avail job = some assigned → pyRemoveAll avail assigned = none →
      (placeLoop pid? now (e :: rest) avail tried jobs gpus).tried = []
      ∧ (placeLoop pid? now (e :: rest) avail tried jobs gpus).remaining = rest) := by
  refine ⟨?_, ?_, ?_, ?_, ?_, ?_⟩
  · intro avail j l hids hne
    have ht : truthyIds (some l) = true := by
      simp [truthyIds, hne]
    constructor
    · intro hall
      have hl : l.all (fun g => avail.contains g) = true := by
        rw [List.all_eq_true]
        intro g hg
        simpa using hall g hg
      unfold placeDecision
      rw [hids]
      dsimp only [Option.getD_some]
      rw [if_pos ht, if_pos hl]
    · intro hnall
      push_neg at hnall
      obtain ⟨g, hg, hgn⟩ := hnall
      have hl : ¬ (l.all (fun g => avail.contains g) = true) := by
        rw [List.all_eq_true]
        intro hforall
        exact hgn (by simpa using hforall g hg)
      unfold placeDecision
      rw [hids]
      dsimp only [Option.getD_some]
      rw [if_pos ht, if_neg hl]
  · intro avail j hids
    have ht : truthyIds j.gpu_ids = false := by rw [hids]; rfl
    constructor
    · intro h
      simp only [placeDecision, ht, Bool.false_eq_true, if_false]
      rw [if_neg (not_lt.mpr h)]
    · intro h
      simp only [placeDecision, ht, Bool.false_eq_true, if_false]
      rw [if_pos h]
  · intro pid? now q
    induction q with
    | nil =>
      intro avail tried jobs gpus
      simp only [placeLoop, List.append_nil]
      exact List.Sublist.refl tried
    | cons e rest ih =>
      intro avail tried jobs gpus
      have hstep : List.Sublist (tried ++ rest) (tried ++ (e :: rest)) :=
        List.Sublist.append_left (List.sublist_cons_self e rest) tried
      cases hl : List.lookup e.job_id jobs with
      | none =>
        simp only [placeLoop, hl]
        exact (ih avail tried jobs gpus).trans hstep
      | some job =>
        by_cases hst : job.status ≠ .queued
        · simp only [placeLoop, hl, if_pos hst]
          exact (ih avail tried jobs gpus).trans hstep
        · cases hd : placeDecision avail job with
          | none =>
            simp only [placeLoop, hl, if_neg hst, hd]
            have := ih avail (tried ++ [e]) jobs gpus
            rw [List.append_assoc, List.singleton_append] at this
            exact this
          | some assigned =>
            cases hrm : pyRemoveAll avail assigned with
            | none =>
              simp only [placeLoop, hl, if_neg hst, hd, hrm]
              exact List.nil_sublist _
            | some avail1 =>
              by_cases hemp : avail1.isEmpty = true
              · simp only [placeLoop, hl, if_neg hst, hd, hrm, hemp, if_pos]
                exact List.sublist_append_left tried (e :: rest)
              · simp only [placeLoop, hl, if_neg hst, hd, hrm, hemp, if_false]
                exact (ih _ tried _ _).trans hstep
  · intro pid? now q
    induction q with
    | nil =>
      intro avail tried jobs gpus
      simp only [placeLoop]
      exact List.suffix_refl []
    | cons e rest ih =>
      intro avail tried jobs gpus
      have hsuf : List.IsSuffix rest (e :: rest) := List.suffix_cons e rest
      cases hl : List.lookup e.job_id jobs with
      | none =>
        simp only [placeLoop, hl]
        exact (ih avail tried jobs gpus).trans hsuf
      | some job =>
        by_cases hst : job.status ≠ .queued
        · simp only [placeLoop, hl, if_pos hst]
          exact (ih avail tried jobs gpus).trans hsuf
        · cases hd : placeDecision avail job with
          | none =>
            simp only [placeLoop, hl, if_neg hst, hd]
            exact (ih avail (tried ++ [e]) jobs gpus).trans hsuf
          | some assigned =>
            cases hrm : pyRemoveAll avail assigned with
            | none =>
              simp only [placeLoop, hl, if_neg hst, hd, hrm]
              exact hsuf
            | some avail1 =>
              by_cases hemp : avail1.isEmpty = true
              · simp only [placeLoop, hl, if_neg hst, hd, hrm, hemp, if_pos]
                exact hsuf
              · simp only [placeLoop, hl, if_neg hst, hd, hrm, hemp, if_false]
                exact (ih _ tried _ _).trans hsuf
  · intro avail assigned h1 h2
    exact pyRemoveAll_of_nodup h1 h2
  · intro pid? now e rest avail tried jobs gpus job assigned hl hst hd hrm
    have hnst : ¬ job.status ≠ Status.queued := by simp [hst]
    constructor
    · simp only [placeLoop, hl, if_neg hnst, hd, hrm]
    · simp only [placeLoop, hl, if_neg hnst, hd, hrm]

/-- C4 counterexample: polling the probe snapshot whose rows arrive as
index 1 then index 0 leaves the free list `[1, 0]` (inventory insertion
order).  A queued one-GPU job is then launched with
`assigned_gpus = [1]`, not the `[0]` that "first `num_gpus` ids of `F`
in ascending id order" requires, although GPU 0 was free. -/
theorem placement_order_not_ascending_cex :
    availableGpus tDesc.gpus = [1, 0]
    ∧ (List.lookup 1 tDescR.jobs).map Job.assigned_gpus = some (some [1])
    ∧ (List.lookup 1 tDescR.jobs).map Job.assigned_gpus ≠ some (some [0]) := by
  refine ⟨by decide, by decide, by decide⟩

/-- C4 witness: the pinned job `jPin` (gpu_ids `[0]`) is feasible against
the free list `[0, 1]` and assigned exactly `[0]`; it is infeasible
against `[1]`; an unpinned one-GPU job against `[1, 0]` takes `[1]`; the
duplicate-free list `[0]` removes cleanly from `[0, 1]`; and on the
concrete state `sDup2` (deferred infeasible job 1, then duplicate-pinned
job 2) the pass launches job 2, the removal of its repeated id raises,
and the deferred entry is dropped: the queue ends empty although job 1
is still `queued`. -/
theorem placement_pass_rules_witness :
    placeDecision [0, 1] jPin = some [0]
    ∧ placeDecision [1] jPin = none
    ∧ placeDecision [1, 0] ({ toJobConfig := jcEcho } : Job) = some (pyTake 1 [1, 0])
    ∧ pyRemoveAll [0, 1] [0] = some ([0].foldl List.erase [0, 1])
    ∧ pyRemoveAll [0, 1] [0, 0] = none
    ∧ sDupR.queue = []
    ∧ (List.lookup 1 sDupR.jobs).map Job.status = some .queued
    ∧ (List.lookup 2 sDupR.jobs).map Job.status = some .running :=
  ⟨(placement_pass_rules.1 [0, 1] jPin [0] rfl (by decide)).1 (by decide),
   (placement_pass_rules.1 [1] jPin [0] rfl (by decide)).2 (by decide),
   (placement_pass_rules.2.1 [1, 0] ({ toJobConfig := jcEcho } : Job) rfl).1 (by decide),
   placement_pass_rules.2.2.2.2.1 [0, 1] [0] (by decide) (by decide),
   by decide, by decide, by decide, by decide⟩

/-- A successful lookup returns a stored entry. -/
theorem lookup_mem {k : Nat} {v : Job} : ∀ {l : Jobs}, List.lookup k l = some v → (k, v) ∈ l := by
  intro l
  induction l with
  | nil => intro h; cases h
  | cons e t ih =>
    intro h
    cases hkb : (k == e.1) with
    | true =>
      have hke : k = e.1 := by simpa using hkb
      simp only [List.lookup, hkb] at h
      cases h
      rw [hke]
      exact List.mem_cons_self _ _
    | false =>
      simp only [List.lookup, hkb] at h
      exact List.mem_cons_of_mem e (ih h)

/-- With unique keys, two stored entries sharing a key are equal. -/
theorem eq_of_mem_of_keys_nodup {β : Type} {l : List (Nat × β)} (hnd : (l.map Prod.fst).Nodup)
    {e e' : Nat × β} (h1 : e ∈ l) (h2 : e' ∈ l) (hk : e.1 = e'.1) : e = e' := by
  induction l with
  | nil => cases h1
  | cons x t ih =>
    rw [List.map_cons, List.nodup_cons] at hnd
    rcases List.mem_cons.mp h1 with rfl | h1t
    · rcases List.mem_cons.mp h2 with rfl | h2t
      · rfl
      · exact absurd (hk ▸ List.mem_map_of_mem Prod.fst h2t) hnd.1
    · rcases List.mem_cons.mp h2 with rfl | h2t
      · exact absurd (hk ▸ List.mem_map_of_mem Prod.fst h1t) hnd.1
      · exact ih hnd.2 h1t h2t

/-- Updating a key does not change the stored key list. -/
theorem keys_updJob (jobs : Jobs) (k : Nat) (f : Job → Job) :
    (updJob jobs k f).map Prod.fst = jobs.map Prod.fst := by
  unfold updJob
  rw [List.map_map]
  refine List.map_congr_left ?_
  intro e _
  by_cases he : e.1 = k
  · simp [Function.comp, he]
  · simp [Function.comp, he]

/-- Membership in an updated store comes from a stored entry. -/
theorem mem_updJob {jobs : Jobs} {k : Nat} {f : Job → Job} {e1 : Nat × Job}
    (h : e1 ∈ updJob jobs k f) :
    ∃ e ∈ jobs, (e.1 = k ∧ e1 = (e.1, f e.2)) ∨ (e.1 ≠ k ∧ e1 = e) := by
  unfold updJob at h
  obtain ⟨e, he, hfe⟩ := List.mem_map.mp h
  refine ⟨e, he, ?_⟩
  by_cases hek : e.1 = k
  · left
    rw [if_pos hek] at hfe
    exact ⟨hek, hfe.symm⟩
  · right
    rw [if_neg hek] at hfe
    exact ⟨hek, hfe.symm⟩

/-- Stored entries survive an update (with the key-`k` transform applied). -/
theorem mem_updJob_of_mem {jobs : Jobs} {k : Nat} {f : Job → Job} {e : Nat × Job} (h : e ∈ jobs) :
    (if e.1 = k then (e.1, f e.2) else e) ∈ updJob jobs k f :=
  List.mem_map_of_mem _ h

/-- The launch transform never touches the submitted configuration. -/
theorem launchTransform_config (pid0 : Option Nat) (now jid : Nat) (a : List Nat) (j : Job) :
    (launchTransform pid0 now jid a j).toJobConfig = j.toJobConfig := by
  cases pid0 <;> rfl

/-- The launch transform sets `running` on success, `failed` on a raised
launch error. -/
theorem launchTransform_status (pid0 : Option Nat) (now jid : Nat) (a : List Nat) (j : Job) :
    (launchTransform pid0 now jid a j).status
      = (match pid0 with | some _ => Status.running | none => Status.failed) := by
  cases pid0 <;> rfl

/-- The launch transform records exactly the assigned list. -/
theorem launchTransform_held (pid0 : Option Nat) (now jid : Nat) (a : List Nat) (j : Job) :
    held (launchTransform pid0 now jid a j) = a := by
  cases pid0 <;> rfl

/-- The reap transform either leaves the job or completes it in place
(preserving configuration, pid and assigned GPUs). -/
theorem reapJob_eq_or (alive : Nat → Bool) (exitOf : Nat → Int) (now : Nat) (j : Job) :
    reapJob alive exitOf now j = j
    ∨ (∃ p, j.pid = some p ∧ alive p = false ∧ j.status = .running
        ∧ reapJob alive exitOf now j
          = { j with status := .completed, end_time := some now, exit_code := some (exitOf p) }) := by
  by_cases hst : j.status = .running
  · cases hp : j.pid with
    | none =>
      left
      simp [reapJob, hst, hp]
    | some p =>
      cases ha : alive p with
      | true =>
        left
        simp [reapJob, hst, hp, ha]
      | false =>
        right
        exact ⟨p, rfl, ha, hst, by simp [reapJob, hst, hp, ha]⟩
  · left
    simp [reapJob, hst]

/-- Erasing each assigned id from a duplicate-free list removes exactly
the assigned ids. -/
theorem foldl_erase_mem {avail : List Nat} (h : avail.Nodup) (assigned : List Nat) (g : Nat) :
    g ∈ assigned.foldl List.erase avail ↔ (g ∈ avail ∧ g ∉ assigned) := by
  induction assigned generalizing avail with
  | nil => simp
  | cons i rest ih =>
    rw [List.foldl_cons]
    rw [ih (h.erase i)]
    rw [List.Nodup.mem_erase_iff h]
    constructor
    · rintro ⟨⟨hgi, hga⟩, hgr⟩
      exact ⟨hga, by simp [hgi, hgr]⟩
    · rintro ⟨hga, hni⟩
      simp only [List.mem_cons, not_or] at hni
      exact ⟨⟨hni.1, hga⟩, hni.2⟩

/-- Erasing preserves freedom from duplicates. -/
theorem foldl_erase_nodup {avail : List Nat} (h : avail.Nodup) (assigned : List Nat) :
    (assigned.foldl List.erase avail).Nodup := by
  induction assigned generalizing avail with
  | nil => exact h
  | cons i rest ih => exact ih (h.erase i)

/-- Every id on the free list names an available record. -/
theorem mem_availableGpus {gpus : Gpus} {g : Nat} :
    g ∈ availableGpus gpus ↔ ∃ q ∈ gpus, q.1 = g ∧ q.2.is_available = true := by
  unfold availableGpus
  rw [List.mem_map]
  constructor
  · rintro ⟨q, hq, rfl⟩
    have := List.mem_filter.mp hq
    exact ⟨q, this.1, rfl, this.2⟩
  · rintro ⟨q, hq, rfl, hav⟩
    exact ⟨q, List.mem_filter.mpr ⟨hq, hav⟩, rfl⟩

/-- The free list of a duplicate-free inventory is duplicate-free. -/
theorem availableGpus_nodup {gpus : Gpus} (h : (gpus.map Prod.fst).Nodup) :
    (availableGpus gpus).Nodup := by
  unfold availableGpus
  have hsub : List.Sublist (gpus.filter (fun q => q.2.is_available)) gpus :=
    List.filter_sublist gpus
  exact h.sublist (hsub.map Prod.fst)

/-- A duplicate-free inventory validates its own free list. -/
theorem availOk_availableGpus {gpus : Gpus} (h : (gpus.map Prod.fst).Nodup) :
    AvailOk gpus (availableGpus gpus) := by
  intro g hg
  obtain ⟨q, hq, hkey, hav⟩ := mem_availableGpus.mp hg
  refine ⟨⟨q, hq, hkey⟩, ?_⟩
  intro q' hq' hkey'
  have heq : q = q' :=
    eq_of_mem_of_keys_nodup h hq hq' (hkey.trans hkey'.symm)
  rw [← heq]
  exact hav

/-- A feasible decision only assigns free ids. -/
theorem placeDecision_subset {avail : List Nat} {j : Job} {a : List Nat}
    (h : placeDecision avail j = some a) : ∀ g ∈ a, g ∈ avail := by
  unfold placeDecision at h
  by_cases ht : truthyIds j.gpu_ids = true
  · rw [if_pos ht] at h
    by_cases hall : (j.gpu_ids.getD []).all (fun g => avail.contains g) = true
    · rw [if_pos hall] at h
      cases h
      intro g hg
      have := List.all_eq_true.mp hall g hg
      simpa using this
    · rw [if_neg hall] at h
      cases h
  · rw [if_neg ht] at h
    by_cases hlen : (avail.length : Int) < j.num_gpus
    · rw [if_pos hlen] at h
      cases h
    · rw [if_neg hlen] at h
      cases h
      intro g hg
      unfold pyTake at hg
      by_cases hn : 0 ≤ j.num_gpus
      · rw [if_pos hn] at hg
        exact List.take_subset _ _ hg
      · rw [if_neg hn] at hg
        exact List.take_subset _ _ hg

/-- Releasing preserves keys and availability of each record. -/
theorem mem_releaseGpus {gpus : Gpus} {ids : List Nat} {q1 : Nat × GPUInfo}
    (h : q1 ∈ releaseGpus gpus ids) :
    ∃ q ∈ gpus, q1.1 = q.1 ∧ q1.2.is_available = q.2.is_available := by
  rw [releaseGpus_eq_map] at h
  obtain ⟨q, hq, hfe⟩ := List.mem_map.mp h
  refine ⟨q, hq, ?_⟩
  by_cases hqi : q.1 ∈ ids
  · rw [if_pos hqi] at hfe
    rw [← hfe]
    exact ⟨rfl, rfl⟩
  · rw [if_neg hqi] at hfe
    rw [← hfe]
    exact ⟨rfl, rfl⟩

/-- Marking assigned: each new record either is a marked (unavailable)
record of an assigned id or is an untouched record of an unassigned id. -/
theorem mem_markAssigned {gpus : Gpus} {ids : List Nat} {jid : Nat} {q1 : Nat × GPUInfo}
    (h : q1 ∈ markAssigned gpus ids jid) :
    ∃ q ∈ gpus, q1.1 = q.1
      ∧ ((q.1 ∈ ids ∧ q1.2.is_available = false) ∨ (q.1 ∉ ids ∧ q1.2 = q.2)) := by
  rw [markAssigned_eq_map] at h
  obtain ⟨q, hq, hfe⟩ := List.mem_map.mp h
  refine ⟨q, hq, ?_⟩
  by_cases hqi : q.1 ∈ ids
  · rw [if_pos hqi] at hfe
    rw [← hfe]
    exact ⟨rfl, Or.inl ⟨hqi, rfl⟩⟩
  · rw [if_neg hqi] at hfe
    rw [← hfe]
    exact ⟨rfl, Or.inr ⟨hqi, rfl⟩⟩

/-- Releasing does not change the key list. -/
theorem keys_releaseGpus (gpus : Gpus) (ids : List Nat) :
    (releaseGpus gpus ids).map Prod.fst = gpus.map Prod.fst := by
  rw [releaseGpus_eq_map, List.map_map]
  refine List.map_congr_left ?_
  intro q _
  by_cases hq : q.1 ∈ ids
  · simp [Function.comp, hq]
  · simp [Function.comp, hq]

/-- Marking does not change the key list. -/
theorem keys_markAssigned (gpus : Gpus) (ids : List Nat) (jid : Nat) :
    (markAssigned gpus ids jid).map Prod.fst = gpus.map Prod.fst := by
  rw [markAssigned_eq_map, List.map_map]
  refine List.map_congr_left ?_
  intro q _
  by_cases hq : q.1 ∈ ids
  · simp [Function.comp, hq]
  · simp [Function.comp, hq]

/-- If every running entry of the new store already was in the old
store, exclusivity carries over. -/
theorem exclusive_of_transform {jobs jobs1 : Jobs}
    (h : ∀ a1 ∈ jobs1, a1.2.status = .running → a1 ∈ jobs)
    (hex : ExclusiveJobs jobs) : ExclusiveJobs jobs1 := by
  intro a ha b hb hne hra hrb
  exact hex a (h a ha hra) b (h b hb hrb) hne hra hrb

/-- Same for the held-implies-unavailable property (jobs side). -/
theorem held_of_transform {jobs jobs1 : Jobs} {gpus : Gpus}
    (h : ∀ a1 ∈ jobs1, a1.2.status = .running → a1 ∈ jobs)
    (hheld : HeldUnavailable jobs gpus) : HeldUnavailable jobs1 gpus := by
  intro a ha hra
  exact hheld a (h a ha hra) hra

/-- Same for the held-implies-unavailable property (gpus side), for any
inventory rewrite that preserves keys and availability. -/
theorem held_of_gpus_avail_pres {jobs : Jobs} {gpus gpus1 : Gpus}
    (h : ∀ q1 ∈ gpus1, ∃ q ∈ gpus, q1.1 = q.1 ∧ q1.2.is_available = q.2.is_available)
    (hheld : HeldUnavailable jobs gpus) : HeldUnavailable jobs gpus1 := by
  intro a ha hra g hg q1 hq1 hkey
  obtain ⟨q, hq, hk, hav⟩ := h q1 hq1
  rw [hav]
  exact hheld a ha hra g hg q hq (hk ▸ hkey)

/-- Reaping keeps every running entry as it was. -/
theorem reap_running_mem {alive : Nat → Bool} {exitOf : Nat → Int} {now : Nat} {jobs : Jobs} :
    ∀ a1 ∈ jobs.map (fun e => (e.1, reapJob alive exitOf now e.2)),
      a1.2.status = .running → a1 ∈ jobs := by
  intro a1 ha1 hra
  obtain ⟨a, ha, hfa⟩ := List.mem_map.mp ha1
  rcases reapJob_eq_or alive exitOf now a.2 with heq | ⟨p, _, _, _, heq⟩
  · rw [← hfa, heq]
    exact ha
  · rw [← hfa] at hra
    rw [heq] at hra
    cases hra

/-- A record stored by `alistSet` is the new record or an old record
under a different key. -/
theorem mem_alistSet {l : Gpus} {k : Nat} {v : GPUInfo} {q1 : Nat × GPUInfo}
    (h : q1 ∈ alistSet l k v) : q1 = (k, v) ∨ (q1 ∈ l ∧ q1.1 ≠ k) := by
  unfold alistSet at h
  by_cases hany : l.any (fun q => q.1 == k) = true
  · rw [if_pos hany] at h
    obtain ⟨q, hq, hfe⟩ := List.mem_map.mp h
    by_cases hqk : q.1 = k
    · rw [if_pos hqk] at hfe
      left
      exact hfe.symm
    · rw [if_neg hqk] at hfe
      right
      rw [← hfe]
      exact ⟨hq, hqk⟩
  · rw [if_neg hany] at h
    rcases List.mem_append.mp h with hl | hr
    · right
      refine ⟨hl, ?_⟩
      intro hk
      have := List.any_eq_false.mp (Bool.eq_false_iff.mpr hany) q1 hl
      simp [hk] at this
    · left
      simpa using hr

/-- `alistSet` preserves unique keys. -/
theorem alistSet_keys_nodup {l : Gpus} {k : Nat} {v : GPUInfo}
    (h : (l.map Prod.fst).Nodup) : ((alistSet l k v).map Prod.fst).Nodup := by
  unfold alistSet
  by_cases hany : l.any (fun q => q.1 == k) = true
  · rw [if_pos hany]
    have : (l.map (fun q => if q.1 = k then (k, v) else q)).map Prod.fst = l.map Prod.fst := by
      rw [List.map_map]
      refine List.map_congr_left ?_
      intro q _
      by_cases hq : q.1 = k
      · simp [Function.comp, hq]
      · simp [Function.comp, hq]
    rw [this]
    exact h
  · rw [if_neg hany]
    rw [List.map_append]
    have hk : k ∉ l.map Prod.fst := by
      intro hmem
      obtain ⟨q, hq, hfq⟩ := List.mem_map.mp hmem
      have := List.any_eq_false.mp (Bool.eq_false_iff.mpr hany) q hq
      simp [hfq] at this
    simp [List.nodup_append, h, hk]

/-- If some running job holds `g`, the per-row scan finds one. -/
theorem firstRunningHolder_isSome {jobs : Jobs} {g : Nat} {a : Nat × Job}
    (ha : a ∈ jobs) (hrun : a.2.status = .running) (hg : g ∈ held a.2) :
    ∃ jid, firstRunningHolder jobs g = some jid := by
  unfold firstRunningHolder
  cases hf : jobs.find? (runningHolds g) with
  | none =>
    have hall := List.find?_eq_none.mp hf
    have : runningHolds g a = true := by
      unfold runningHolds
      have h1 : (held a.2).isEmpty = false := by
        cases hh : held a.2 with
        | nil => rw [hh] at hg; cases hg
        | cons x t => rfl
      simp [hrun, h1]
      simpa using hg
    exact absurd this (hall a ha)
  | some e =>
    exact ⟨e.1, rfl⟩

/-- A row kept by the poll either leaves the inventory unchanged or
stores one record which is unavailable whenever a running job holds its
id. -/
theorem pollLine_shape {cfg : Config} {jobs : Jobs} {line : String} {gpus gpus1 : Gpus}
    (h : pollLine cfg jobs line gpus = some gpus1) :
    gpus1 = gpus
    ∨ ∃ gid gi2, gpus1 = alistSet gpus gid gi2
        ∧ ((∃ a ∈ jobs, a.2.status = .running ∧ gid ∈ held a.2) → gi2.is_available = false) := by
  unfold pollLine at h
  by_cases hlen : ((pySplit ',' line).map pyStrip).length < 8
  · rw [if_pos hlen] at h
    cases h
    left
    rfl
  · rw [if_neg hlen] at h
    cases hpr : parseRow ((pySplit ',' line).map pyStrip) with
    | none =>
      rw [hpr] at h
      cases h
    | some pr =>
      obtain ⟨gid, gi0⟩ := pr
      rw [hpr] at h
      dsimp only at h
      right
      cases hfr : firstRunningHolder jobs gid with
      | none =>
        rw [hfr] at h
        refine ⟨gid, _, (Option.some_injective _ h).symm, ?_⟩
        rintro ⟨a, ha, hrun, hg⟩
        obtain ⟨jid, hj⟩ := firstRunningHolder_isSome ha hrun hg
        rw [hj] at hfr
        cases hfr
      | some j0 =>
        rw [hfr] at h
        refine ⟨gid, _, (Option.some_injective _ h).symm, ?_⟩
        intro _
        by_cases hcond :
            ({ gi0 with is_available := false, assigned_job_id := some j0 }.total_memory
              - { gi0 with is_available := false, assigned_job_id := some j0 }.used_memory
                < cfg.min_free_memory
              ∨ { gi0 with is_available := false, assigned_job_id := some j0 }.utilization
                > cfg.max_gpu_util)
            ∧ { gi0 with is_available := false, assigned_job_id := some j0 }.assigned_job_id = none
        · rw [if_pos hcond]
        · rw [if_neg hcond]

/-- The poll keeps every held GPU record unavailable. -/
theorem pollLines_held {cfg : Config} {jobs : Jobs} :
    ∀ (lines : List String) (gpus : Gpus), HeldUnavailable jobs gpus →
      HeldUnavailable jobs (pollLines cfg jobs lines gpus) := by
  intro lines
  induction lines with
  | nil =>
    intro gpus hheld
    exact hheld
  | cons l rest ih =>
    intro gpus hheld
    rw [pollLines]
    cases hpl : pollLine cfg jobs l gpus with
    | none => exact hheld
    | some g2 =>
      refine ih g2 ?_
      rcases pollLine_shape hpl with rfl | ⟨gid, gi2, rfl, hgi⟩
      · exact hheld
      · intro a ha hrun g hg q1 hq1 hkey
        rcases mem_alistSet hq1 with rfl | ⟨hq1g, hne⟩
        · have hgg : gid = g := hkey
          subst hgg
          exact hgi ⟨a, ha, hrun, hg⟩
        · exact hheld a ha hrun g hg q1 hq1g hkey

/-- The poll preserves unique inventory keys. -/
theorem pollLines_keys_nodup {cfg : Config} {jobs : Jobs} :
    ∀ (lines : List String) (gpus : Gpus), (gpus.map Prod.fst).Nodup →
      ((pollLines cfg jobs lines gpus).map Prod.fst).Nodup := by
  intro lines
  induction lines with
  | nil =>
    intro gpus h
    exact h
  | cons l rest ih =>
    intro gpus h
    rw [pollLines]
    cases hpl : pollLine cfg jobs l gpus with
    | none => exact h
    | some g2 =>
      refine ih g2 ?_
      rcases pollLine_shape hpl with rfl | ⟨gid, gi2, rfl, _⟩
      · exact h
      · exact alistSet_keys_nodup h

/-- All inventory records after a launch: records of assigned ids are
unavailable, others keep their availability. -/
theorem launchJob_gpus_mem {pid0 : Option Nat} {now jid : Nat} {assigned : List Nat}
    {jobs : Jobs} {gpus : Gpus} {q1 : Nat × GPUInfo}
    (h : q1 ∈ (launchJob pid0 now jid assigned jobs gpus).2) :
    ∃ q ∈ gpus, q1.1 = q.1
      ∧ ((q.1 ∈ assigned ∧ q1.2.is_available = false)
        ∨ (q.1 ∉ assigned ∧ q1.2.is_available = q.2.is_available)) := by
  cases pid0 with
  | some p =>
    obtain ⟨q, hq, hk, hcase⟩ := mem_markAssigned h
    refine ⟨q, hq, hk, ?_⟩
    rcases hcase with ⟨hin, hfa⟩ | ⟨hnin, heq⟩
    · exact Or.inl ⟨hin, hfa⟩
    · exact Or.inr ⟨hnin, by rw [heq]⟩
  | none =>
    obtain ⟨qm, hqm, hk1, hav1⟩ := mem_releaseGpus h
    obtain ⟨q, hq, hk2, hcase⟩ := mem_markAssigned hqm
    refine ⟨q, hq, hk1.trans hk2, ?_⟩
    rcases hcase with ⟨hin, hfa⟩ | ⟨hnin, heq⟩
    · exact Or.inl ⟨hin, hav1.trans hfa⟩
    · exact Or.inr ⟨hnin, by rw [hav1, heq]⟩

/-- Launching does not change the inventory key list. -/
theorem launchJob_gpus_keys (pid0 : Option Nat) (now jid : Nat) (assigned : List Nat)
    (jobs : Jobs) (gpus : Gpus) :
    (launchJob pid0 now jid assigned jobs gpus).2.map Prod.fst = gpus.map Prod.fst := by
  cases pid0 with
  | some p => exact keys_markAssigned gpus assigned jid
  | none => exact (keys_releaseGpus _ assigned).trans (keys_markAssigned gpus assigned jid)

/-- The job-store part of a launch is the keyed update in both cases. -/
theorem launchJob_jobs_eq (pid0 : Option Nat) (now jid : Nat) (assigned : List Nat)
    (jobs : Jobs) (gpus : Gpus) :
    (launchJob pid0 now jid assigned jobs gpus).1
      = updJob jobs jid (launchTransform pid0 now jid assigned) := by
  cases pid0 <;> rfl

/-- One launch inside the placement pass preserves the invariant pieces
and updates the free list to the erased one. -/
theorem launch_preserves (pid0 : Option Nat) (now : Nat) {jid : Nat} {assigned avail : List Nat}
    {jobs : Jobs} {gpus : Gpus} {job : Job}
    (hex : ExclusiveJobs jobs) (hheld : HeldUnavailable jobs gpus)
    (hjnd : (jobs.map Prod.fst).Nodup) (_hgnd : (gpus.map Prod.fst).Nodup)
    (hav : AvailOk gpus avail) (havnd : avail.Nodup)
    (hlook : List.lookup jid jobs = some job) (_hq : job.status = .queued)
    (hsub : ∀ g ∈ assigned, g ∈ avail) :
    ExclusiveJobs (launchJob pid0 now jid assigned jobs gpus).1
    ∧ HeldUnavailable (launchJob pid0 now jid assigned jobs gpus).1
        (launchJob pid0 now jid assigned jobs gpus).2
    ∧ ((launchJob pid0 now jid assigned jobs gpus).1.map Prod.fst = jobs.map Prod.fst)
    ∧ ((launchJob pid0 now jid assigned jobs gpus).2.map Prod.fst = gpus.map Prod.fst)
    ∧ AvailOk (launchJob pid0 now jid assigned jobs gpus).2 (assigned.foldl List.erase avail)
    ∧ (assigned.foldl List.erase avail).Nodup := by
  have hmemj : (jid, job) ∈ jobs := lookup_mem hlook
  have hchar : ∀ a1 ∈ (launchJob pid0 now jid assigned jobs gpus).1,
      a1 = (jid, launchTransform pid0 now jid assigned job) ∨ (a1 ∈ jobs ∧ a1.1 ≠ jid) := by
    intro a1 ha1
    rw [launchJob_jobs_eq] at ha1
    obtain ⟨e, he, hcase⟩ := mem_updJob ha1
    rcases hcase with ⟨hek, rfl⟩ | ⟨hek, rfl⟩
    · left
      have heqe : e = (jid, job) := eq_of_mem_of_keys_nodup hjnd he hmemj hek
      subst heqe
      rfl
    · right
      exact ⟨he, hek⟩
  have hdisj : ∀ a ∈ jobs, a.2.status = .running → ∀ g ∈ held a.2, g ∉ avail := by
    intro a ha hrun g hg hga
    obtain ⟨⟨q, hq', hk⟩, hall⟩ := hav g hga
    have h1 := hheld a ha hrun g hg q hq' hk
    have h2 := hall q hq' hk
    rw [h1] at h2
    cases h2
  refine ⟨?_, ?_, ?_, launchJob_gpus_keys pid0 now jid assigned jobs gpus, ?_, foldl_erase_nodup havnd assigned⟩
  · intro a1 ha1 b1 hb1 hne hra hrb g hg
    rcases hchar a1 ha1 with rfl | ⟨ha1m, ha1k⟩
    · rcases hchar b1 hb1 with rfl | ⟨hb1m, hb1k⟩
      · exact absurd rfl hne
      · have hga : g ∈ assigned := by
          rw [show held (jid, launchTransform pid0 now jid assigned job).2
              = assigned from launchTransform_held pid0 now jid assigned job] at hg
          exact hg
        intro hgb
        exact hdisj b1 hb1m hrb g hgb (hsub g hga)
    · rcases hchar b1 hb1 with rfl | ⟨hb1m, hb1k⟩
      · intro hgb
        have hgb' : g ∈ assigned := by
          rw [show held (jid, launchTransform pid0 now jid assigned job).2
              = assigned from launchTransform_held pid0 now jid assigned job] at hgb
          exact hgb
        exact hdisj a1 ha1m hra g hg (hsub g hgb')
      · exact hex a1 ha1m b1 hb1m hne hra hrb g hg
  · intro a1 ha1 hra g hg q1 hq1 hkey
    obtain ⟨q, hq', hqk, hcase⟩ := launchJob_gpus_mem hq1
    rcases hchar a1 ha1 with rfl | ⟨ha1m, _⟩
    · have hga : g ∈ assigned := by
        rw [show held (jid, launchTransform pid0 now jid assigned job).2
            = assigned from launchTransform_held pid0 now jid assigned job] at hg
        exact hg
      rcases hcase with ⟨_, hfalse⟩ | ⟨hnin, _⟩
      · exact hfalse
      · have : q.1 = g := by rw [← hqk]; exact hkey
        rw [this] at hnin
        exact absurd hga hnin
    · rcases hcase with ⟨_, hfalse⟩ | ⟨hnin, havq⟩
      · exact hfalse
      · rw [havq]
        exact hheld a1 ha1m hra g hg q hq' (by rw [← hqk]; exact hkey)
  · rw [launchJob_jobs_eq]
    exact keys_updJob jobs jid _
  · intro g hg1
    have hpair := (foldl_erase_mem havnd assigned g).mp hg1
    obtain ⟨hga, hgna⟩ := hpair
    obtain ⟨⟨q, hq', hqkey⟩, hall⟩ := hav g hga
    constructor
    · have hgk : g ∈ (launchJob pid0 now jid assigned jobs gpus).2.map Prod.fst := by
        rw [launchJob_gpus_keys]
        rw [← hqkey]
        exact List.mem_map_of_mem Prod.fst hq'
      obtain ⟨q1, hq1, hq1k⟩ := List.mem_map.mp hgk
      exact ⟨q1, hq1, hq1k⟩
    · intro q1 hq1 hkey
      obtain ⟨q', hq'', hk', hcase⟩ := launchJob_gpus_mem hq1
      rcases hcase with ⟨hin, _⟩ | ⟨hnin, havq⟩
      · have : q'.1 = g := by rw [← hk']; exact hkey
        rw [this] at hin
        exact absurd hin hgna
      · rw [havq]
        exact hall q' hq'' (by rw [← hk']; exact hkey)

/-- The placement loop preserves exclusivity, the held-unavailable
property, and both key lists. -/
theorem placeLoop_inv (pid? : Nat → Option Nat) (now : Nat) :
    ∀ (q : List QEntry) (avail : List Nat) (tried : List QEntry) (jobs : Jobs) (gpus : Gpus),
      ExclusiveJobs jobs → HeldUnavailable jobs gpus →
      (jobs.map Prod.fst).Nodup → (gpus.map Prod.fst).Nodup →
      AvailOk gpus avail → avail.Nodup →
      ExclusiveJobs (placeLoop pid? now q avail tried jobs gpus).jobs
      ∧ HeldUnavailable (placeLoop pid? now q avail tried jobs gpus).jobs
          (placeLoop pid? now q avail tried jobs gpus).gpus
      ∧ ((placeLoop pid? now q avail tried jobs gpus).jobs.map Prod.fst = jobs.map Prod.fst)
      ∧ ((placeLoop pid? now q avail tried jobs gpus).gpus.map Prod.fst = gpus.map Prod.fst) := by
  intro q
  induction q with
  | nil =>
    intro avail tried jobs gpus hex hheld hjnd hgnd hav havnd
    exact ⟨hex, hheld, rfl, rfl⟩
  | cons e rest ih =>
    intro avail tried jobs gpus hex hheld hjnd hgnd hav havnd
    cases hl : List.lookup e.job_id jobs with
    | none =>
      simp only [placeLoop, hl]
      exact ih avail tried jobs gpus hex hheld hjnd hgnd hav havnd
    | some job =>
      by_cases hst : job.status ≠ .queued
      · simp only [placeLoop, hl, if_pos hst]
        exact ih avail tried jobs gpus hex hheld hjnd hgnd hav havnd
      · push_neg at hst
        cases hd : placeDecision avail job with
        | none =>
          simp only [placeLoop, hl, if_neg (by simp [hst] : ¬ job.status ≠ Status.queued), hd]
          exact ih avail (tried ++ [e]) jobs gpus hex hheld hjnd hgnd hav havnd
        | some assigned =>
          have hsub := placeDecision_subset hd
          obtain ⟨hex1, hheld1, hjk1, hgk1, hav1, havnd1⟩ :=
            launch_preserves (pid? e.job_id) now hex hheld hjnd hgnd hav havnd hl hst hsub
          cases hrm : pyRemoveAll avail assigned with
          | none =>
            simp only [placeLoop, hl, if_neg (by simp [hst] : ¬ job.status ≠ Status.queued), hd,
              hrm]
            exact ⟨hex1, hheld1, hjk1, hgk1⟩
          | some avail1 =>
            have hfold := pyRemoveAll_eq_foldl hrm
            subst hfold
            by_cases hemp : (assigned.foldl List.erase avail).isEmpty = true
            · simp only [placeLoop, hl, if_neg (by simp [hst] : ¬ job.status ≠ Status.queued), hd,
                hrm, hemp, if_pos]
              exact ⟨hex1, hheld1, hjk1, hgk1⟩
            · simp only [placeLoop, hl, if_neg (by simp [hst] : ¬ job.status ≠ Status.queued), hd,
                hrm, hemp, if_false]
              obtain ⟨hex2, hheld2, hjk2, hgk2⟩ :=
                ih (assigned.foldl List.erase avail) tried _ _ hex1 hheld1
                  (by rw [hjk1]; exact hjnd) (by rw [hgk1]; exact hgnd) hav1 havnd1
              exact ⟨hex2, hheld2, hjk2.trans hjk1, hgk2.trans hgk1⟩

/-- Anything in a store whose key list matches stays under the bound. -/
theorem bound_of_keys_eq {jobs jobs1 : Jobs} {n : Nat}
    (hk : jobs1.map Prod.fst = jobs.map Prod.fst) (hb : ∀ e ∈ jobs, e.1 < n) :
    ∀ e1 ∈ jobs1, e1.1 < n := by
  intro e1 he1
  have hmem : e1.1 ∈ jobs1.map Prod.fst := List.mem_map_of_mem Prod.fst he1
  rw [hk] at hmem
  obtain ⟨e, he, hke⟩ := List.mem_map.mp hmem
  rw [← hke]
  exact hb e he

/-- `submit_job` appends one fresh queued record and bumps the counter;
queue aside, nothing else changes. -/
theorem submit_shape (now : Nat) (cfg : JobConfig) (s : State) :
    ∃ j : Job, j.status = .queued
      ∧ (submit_job now cfg s).2.jobs = s.jobs ++ [(s.next_job_id, j)]
      ∧ (submit_job now cfg s).2.gpus = s.gpus
      ∧ (submit_job now cfg s).2.next_job_id = s.next_job_id + 1
      ∧ (submit_job now cfg s).1 = s.next_job_id :=
  ⟨_, rfl, rfl, rfl, rfl, rfl⟩

/-- `cancel_job` either leaves the state alone or cancels the looked-up
job in place, releasing a list of GPU ids (empty for a queued job). -/
theorem cancel_shape (sigOk : Bool) (now jid : Nat) (s : State) :
    (cancel_job sigOk now jid s).2 = s
    ∨ ∃ ids, (cancel_job sigOk now jid s).2
        = { s with
            jobs := updJob s.jobs jid (fun j => { j with status := .cancelled, end_time := some now })
            gpus := releaseGpus s.gpus ids } := by
  unfold cancel_job
  cases hl : List.lookup jid s.jobs with
  | none => left; rfl
  | some job =>
    dsimp only
    by_cases hc1 : job.status = .running ∧ job.pid.isSome = true
    · rw [if_pos hc1]
      cases sigOk with
      | true =>
        right
        exact ⟨held job, rfl⟩
      | false => left; rfl
    · rw [if_neg hc1]
      by_cases hc2 : job.status = .queued
      · rw [if_pos hc2]
        right
        exact ⟨[], rfl⟩
      · rw [if_neg hc2]
        left
        rfl

/-- `Inv` holds initially. -/
theorem inv_init : Inv initState := by
  refine ⟨?_, ?_, ?_, ?_, ?_⟩
  · intro a ha
    cases ha
  · intro a ha
    cases ha
  · exact List.nodup_nil
  · intro e he
    cases he
  · exact List.nodup_nil

/-- `Inv` is preserved by submission. -/
theorem inv_submit (now : Nat) (cfg : JobConfig) {s : State} (h : Inv s) :
    Inv (submit_job now cfg s).2 := by
  have hex := h.1
  have hheld := h.2.1
  have hjnd := h.2.2.1
  have hbound := h.2.2.2.1
  have hgnd := h.2.2.2.2
  obtain ⟨j, hjq, hjobs, hgpus, hnext, _⟩ := submit_shape now cfg s
  have hmemchar : ∀ a1 ∈ (submit_job now cfg s).2.jobs, a1.2.status = .running → a1 ∈ s.jobs := by
    intro a1 ha1 hra
    rw [hjobs] at ha1
    rcases List.mem_append.mp ha1 with hm | hm
    · exact hm
    · have : a1 = (s.next_job_id, j) := by simpa using hm
      rw [this] at hra
      rw [hjq] at hra
      cases hra
  refine ⟨exclusive_of_transform hmemchar hex, ?_, ?_, ?_, ?_⟩
  · rw [show (submit_job now cfg s).2.gpus = s.gpus from hgpus]
    exact held_of_transform hmemchar hheld
  · rw [hjobs, List.map_append]
    have hfresh : s.next_job_id ∉ s.jobs.map Prod.fst := by
      intro hmem
      obtain ⟨e, he, hke⟩ := List.mem_map.mp hmem
      have := hbound e he
      omega
    simp [List.nodup_append, hjnd, hfresh]
  · rw [hjobs, hnext]
    intro e1 he1
    rcases List.mem_append.mp he1 with hm | hm
    · have := hbound e1 hm
      omega
    · have : e1 = (s.next_job_id, j) := by simpa using hm
      rw [this]
      omega
  · rw [hgpus]
    exact hgnd

/-- `Inv` is preserved by the GPU poll. -/
theorem inv_poll (cfg : Config) (probe : Option String) {s : State} (h : Inv s) :
    Inv (update_gpu_info cfg probe s) := by
  cases probe with
  | none => exact h
  | some out =>
    have hex := h.1
    have hheld := h.2.1
    have hjnd := h.2.2.1
    have hbound := h.2.2.2.1
    have hgnd := h.2.2.2.2
    refine ⟨hex, ?_, hjnd, hbound, ?_⟩
    · exact pollLines_held _ s.gpus hheld
    · exact pollLines_keys_nodup _ s.gpus hgnd

/-- `Inv` is preserved by reaping. -/
theorem inv_reap (alive : Nat → Bool) (exitOf : Nat → Int) (now : Nat) {s : State}
    (h : Inv s) : Inv (check_running_jobs alive exitOf now s) := by
  have hex := h.1
  have hheld := h.2.1
  have hjnd := h.2.2.1
  have hbound := h.2.2.2.1
  have hgnd := h.2.2.2.2
  have hkeys : ((check_running_jobs alive exitOf now s).jobs.map Prod.fst) = s.jobs.map Prod.fst := by
    show ((s.jobs.map (fun e => (e.1, reapJob alive exitOf now e.2))).map Prod.fst) = _
    rw [List.map_map]
    exact List.map_congr_left (fun e _ => rfl)
  refine ⟨exclusive_of_transform reap_running_mem hex, ?_, ?_, ?_, ?_⟩
  · exact held_of_gpus_avail_pres (fun q1 hq1 => mem_releaseGpus hq1)
      (held_of_transform reap_running_mem hheld)
  · rw [hkeys]
    exact hjnd
  · exact bound_of_keys_eq hkeys hbound
  · show ((releaseGpus s.gpus (reapDeadIds alive s.jobs)).map Prod.fst).Nodup
    rw [keys_releaseGpus]
    exact hgnd

/-- `Inv` is preserved by the placement pass. -/
theorem inv_place (pid? : Nat → Option Nat) (now : Nat) {s : State} (h : Inv s) :
    Inv (start_pending_jobs pid? now s) := by
  have hex := h.1
  have hheld := h.2.1
  have hjnd := h.2.2.1
  have hbound := h.2.2.2.1
  have hgnd := h.2.2.2.2
  unfold start_pending_jobs
  by_cases h1 : (availableGpus s.gpus).isEmpty = true
  · rw [if_pos h1]
    exact h
  · rw [if_neg h1]
    by_cases h2 : s.queue.isEmpty = true
    · rw [if_pos h2]
      exact h
    · rw [if_neg h2]
      obtain ⟨hex1, hheld1, hjk, hgk⟩ :=
        placeLoop_inv pid? now s.queue (availableGpus s.gpus) [] s.jobs s.gpus
          hex hheld hjnd hgnd (availOk_availableGpus hgnd) (availableGpus_nodup hgnd)
      refine ⟨hex1, hheld1, ?_, ?_, ?_⟩
      · rw [hjk]
        exact hjnd
      · exact bound_of_keys_eq hjk hbound
      · rw [hgk]
        exact hgnd

/-- `Inv` is preserved by cancellation. -/
theorem inv_cancel (sigOk : Bool) (now jid : Nat) {s : State} (h : Inv s) :
    Inv (cancel_job sigOk now jid s).2 := by
  have hex := h.1
  have hheld := h.2.1
  have hjnd := h.2.2.1
  have hbound := h.2.2.2.1
  have hgnd := h.2.2.2.2
  rcases cancel_shape sigOk now jid s with heq | ⟨ids, heq⟩
  · rw [heq]
    exact h
  · rw [heq]
    have hmemchar : ∀ a1 ∈ updJob s.jobs jid
        (fun j => { j with status := Status.cancelled, end_time := some now }),
        a1.2.status = .running → a1 ∈ s.jobs := by
      intro a1 ha1 hra
      obtain ⟨e, he, hcase⟩ := mem_updJob ha1
      rcases hcase with ⟨hek, rfl⟩ | ⟨hek, rfl⟩
      · cases hra
      · exact he
    refine ⟨exclusive_of_transform hmemchar hex, ?_, ?_, ?_, ?_⟩
    · exact held_of_gpus_avail_pres (fun q1 hq1 => mem_releaseGpus hq1)
        (held_of_transform hmemchar hheld)
    · show ((updJob s.jobs jid
          (fun j => { j with status := Status.cancelled, end_time := some now })).map Prod.fst).Nodup
      rw [keys_updJob]
      exact hjnd
    · exact bound_of_keys_eq (keys_updJob s.jobs jid
        (fun j => { j with status := Status.cancelled, end_time := some now })) hbound
    · show ((releaseGpus s.gpus ids).map Prod.fst).Nodup
      rw [keys_releaseGpus]
      exact hgnd

/-- `Inv` is preserved by every scheduler operation. -/
theorem inv_step {s s1 : State} (h : Inv s) (hstep : Step s s1) : Inv s1 := by
  cases hstep with
  | submit now cfg s => exact inv_submit now cfg h
  | poll cfg probe s => exact inv_poll cfg probe h
  | reap alive exitOf now s => exact inv_reap alive exitOf now h
  | place pid? now s => exact inv_place pid? now h
  | cancel sigOk now jid s => exact inv_cancel sigOk now jid h

/-- Every reachable state satisfies the invariant. -/
theorem reachable_inv : ∀ s, Reachable s → Inv s := by
  intro s h
  induction h with
  | refl => exact inv_init
  | tail _ hstep ih => exact inv_step ih hstep

/-- C1: in every reachable scheduler state no GPU id is held by the
`assigned_gpus` of two running jobs with distinct ids; every operation
(submit, poll, reap, placement pass with its launches, cancel) preserves
this exclusivity, as the step-indexed reachability shows. -/
theorem gpu_exclusive_of_reachable : ∀ s, Reachable s → GpuExclusive s :=
  fun s h => (reachable_inv s h).1

/-- C1 witness: the invariant at the concrete reachable state `sRun2`
(one running job holding GPU 0, one queued job). -/
theorem gpu_exclusive_of_reachable_witness : GpuExclusive sRun2 :=
  gpu_exclusive_of_reachable sRun2 sRun2_reachable

/-- Reflexive `Forall₂` for a reflexive relation. -/
theorem forall2_refl_of {α : Type} {R : α → α → Prop} (h : ∀ a, R a a) :
    ∀ l : List α, List.Forall₂ R l l := by
  intro l
  induction l with
  | nil => exact List.Forall₂.nil
  | cons a t ih => exact List.Forall₂.cons (h a) ih

/-- Transitive composition of `Forall₂` for a transitive relation. -/
theorem forall2_trans_of {α : Type} (R : α → α → Prop)
    (ht : ∀ a b c, R a b → R b c → R a c) :
    ∀ {l1 l2 l3 : List α}, List.Forall₂ R l1 l2 → List.Forall₂ R l2 l3 →
      List.Forall₂ R l1 l3 := by
  intro l1 l2 l3 h1
  induction h1 generalizing l3 with
  | nil =>
    intro h2
    cases h2
    exact List.Forall₂.nil
  | cons hab htail ih =>
    intro h2
    cases h2 with
    | cons hbc h2tail => exact List.Forall₂.cons (ht _ _ _ hab hbc) (ih h2tail)

/-- A pointwise map is `Forall₂`-related to its source. -/
theorem forall2_map_of {α β : Type} {R : α → β → Prop} {g : α → β} :
    ∀ {l : List α}, (∀ a ∈ l, R a (g a)) → List.Forall₂ R l (l.map g) := by
  intro l
  induction l with
  | nil => intro _; exact List.Forall₂.nil
  | cons a t ih =>
    intro h
    exact List.Forall₂.cons (h a (List.mem_cons_self a t))
      (ih fun x hx => h x (List.mem_cons_of_mem a hx))

/-- Forward membership through `Forall₂`. -/
theorem forall2_mem_left {α β : Type} {R : α → β → Prop} :
    ∀ {l1 : List α} {l2 : List β}, List.Forall₂ R l1 l2 → ∀ a ∈ l1, ∃ b ∈ l2, R a b := by
  intro l1 l2 h
  induction h with
  | nil => intro a ha; cases ha
  | cons hab htail ih =>
    intro a ha
    rcases List.mem_cons.mp ha with rfl | hat
    · exact ⟨_, List.mem_cons_self _ _, hab⟩
    · obtain ⟨b, hb, hr⟩ := ih a hat
      exact ⟨b, List.mem_cons_of_mem _ hb, hr⟩

/-- Backward membership through `Forall₂`. -/
theorem forall2_mem_right {α β : Type} {R : α → β → Prop} :
    ∀ {l1 : List α} {l2 : List β}, List.Forall₂ R l1 l2 → ∀ b ∈ l2, ∃ a ∈ l1, R a b := by
  intro l1 l2 h
  induction h with
  | nil => intro b hb; cases hb
  | cons hab htail ih =>
    intro b hb
    rcases List.mem_cons.mp hb with rfl | hbt
    · exact ⟨_, List.mem_cons_self _ _, hab⟩
    · obtain ⟨a, ha, hr⟩ := ih b hbt
      exact ⟨a, List.mem_cons_of_mem _ ha, hr⟩

/-- `JobEvolve` is reflexive. -/
theorem jobEvolve_refl (e : Nat × Job) : JobEvolve e e :=
  ⟨rfl, rfl, Relation.ReflTransGen.refl⟩

/-- `JobEvolve` is transitive. -/
theorem jobEvolve_trans {a b c : Nat × Job} (h1 : JobEvolve a b) (h2 : JobEvolve b c) :
    JobEvolve a c :=
  ⟨h2.1.trans h1.1, h2.2.1.trans h1.2.1, h1.2.2.trans h2.2.2⟩

/-- The edge `queued → running`. -/
theorem statusPath_queued_running : StatusPath .queued .running :=
  Relation.ReflTransGen.single (Or.inl ⟨rfl, rfl⟩)

/-- The path `queued → running → failed`. -/
theorem statusPath_queued_failed : StatusPath .queued .failed :=
  Relation.ReflTransGen.tail statusPath_queued_running (Or.inr (Or.inr (Or.inl ⟨rfl, rfl⟩)))

/-- The edge `running → completed`. -/
theorem statusPath_running_completed : StatusPath .running .completed :=
  Relation.ReflTransGen.single (Or.inr (Or.inl ⟨rfl, rfl⟩))

/-- The edge `running → cancelled`. -/
theorem statusPath_running_cancelled : StatusPath .running .cancelled :=
  Relation.ReflTransGen.single (Or.inr (Or.inr (Or.inr (Or.inl ⟨rfl, rfl⟩))))

/-- The direct edge `queued → cancelled`. -/
theorem statusPath_queued_cancelled : StatusPath .queued .cancelled :=
  Relation.ReflTransGen.single (Or.inr (Or.inr (Or.inr (Or.inr ⟨rfl, rfl⟩))))

/-- The launch transform moves a queued job along a DAG path. -/
theorem statusPath_queued_launch (pid0 : Option Nat) :
    StatusPath .queued (match pid0 with | some _ => Status.running | none => Status.failed) := by
  cases pid0 with
  | some p => exact statusPath_queued_running
  | none => exact statusPath_queued_failed

/-- `cancelled` has no outgoing edge: paths from it stay at it. -/
theorem statusPath_cancelled_terminal : ∀ a b, StatusPath a b → a = .cancelled → b = .cancelled := by
  intro a b h
  induction h with
  | refl => intro ha; exact ha
  | tail hpath hedge ih =>
    intro ha
    have hb := ih ha
    rcases hedge with ⟨h1, _⟩ | ⟨h1, _⟩ | ⟨h1, _⟩ | ⟨h1, _⟩ | ⟨h1, _⟩ <;>
      (rw [hb] at h1; cases h1)

/-- The placement pass evolves every stored job along legal transitions
preserving keys and configurations. -/
theorem placeLoop_evolve (pid? : Nat → Option Nat) (now : Nat) :
    ∀ (q : List QEntry) (avail : List Nat) (tried : List QEntry) (jobs : Jobs) (gpus : Gpus),
      (jobs.map Prod.fst).Nodup →
      List.Forall₂ JobEvolve jobs (placeLoop pid? now q avail tried jobs gpus).jobs := by
  intro q
  induction q with
  | nil =>
    intro avail tried jobs gpus _
    exact forall2_refl_of jobEvolve_refl jobs
  | cons e rest ih =>
    intro avail tried jobs gpus hnd
    cases hl : List.lookup e.job_id jobs with
    | none =>
      simp only [placeLoop, hl]
      exact ih avail tried jobs gpus hnd
    | some job =>
      by_cases hst : job.status ≠ .queued
      · simp only [placeLoop, hl, if_pos hst]
        exact ih avail tried jobs gpus hnd
      · push_neg at hst
        cases hd : placeDecision avail job with
        | none =>
          simp only [placeLoop, hl, if_neg (by simp [hst] : ¬ job.status ≠ Status.queued), hd]
          exact ih avail (tried ++ [e]) jobs gpus hnd
        | some assigned =>
          have hstep : List.Forall₂ JobEvolve jobs
              ((launchJob (pid? e.job_id) now e.job_id assigned jobs gpus).1) := by
            rw [launchJob_jobs_eq]
            refine forall2_map_of ?_
            intro a ha
            by_cases hak : a.1 = e.job_id
            · have haeq : a = (e.job_id, job) :=
                eq_of_mem_of_keys_nodup hnd ha (lookup_mem hl) hak
              rw [if_pos hak]
              refine ⟨rfl, launchTransform_config _ now _ assigned a.2, ?_⟩
              rw [launchTransform_status]
              have hstat : a.2.status = .queued := by rw [haeq]; exact hst
              rw [hstat]
              exact statusPath_queued_launch (pid? e.job_id)
            · rw [if_neg hak]
              exact jobEvolve_refl a
          have hnd1 : (((launchJob (pid? e.job_id) now e.job_id assigned jobs gpus).1).map
              Prod.fst).Nodup := by
            rw [launchJob_jobs_eq, keys_updJob]
            exact hnd
          cases hrm : pyRemoveAll avail assigned with
          | none =>
            simp only [placeLoop, hl, if_neg (by simp [hst] : ¬ job.status ≠ Status.queued), hd,
              hrm]
            exact hstep
          | some avail1 =>
            by_cases hemp : avail1.isEmpty = true
            · simp only [placeLoop, hl, if_neg (by simp [hst] : ¬ job.status ≠ Status.queued), hd,
                hrm, hemp, if_pos]
              exact hstep
            · simp only [placeLoop, hl, if_neg (by simp [hst] : ¬ job.status ≠ Status.queued), hd,
                hrm, hemp, if_false]
              exact forall2_trans_of JobEvolve (fun a b c h1 h2 => jobEvolve_trans h1 h2) hstep
                (ih avail1 tried _ _ hnd1)

/-- `cancel_job` either leaves the state alone or cancels the looked-up
job — one that was `running` or `queued` — in place. -/
theorem cancel_shape2 (sigOk : Bool) (now jid : Nat) (s : State) :
    (cancel_job sigOk now jid s).2 = s
    ∨ ∃ job ids, List.lookup jid s.jobs = some job
        ∧ (job.status = .running ∨ job.status = .queued)
        ∧ (cancel_job sigOk now jid s).2
          = { s with
              jobs := updJob s.jobs jid (fun j => { j with status := .cancelled, end_time := some now })
              gpus := releaseGpus s.gpus ids } := by
  unfold cancel_job
  cases hl : List.lookup jid s.jobs with
  | none => left; rfl
  | some job =>
    dsimp only
    by_cases hc1 : job.status = .running ∧ job.pid.isSome = true
    · rw [if_pos hc1]
      cases sigOk with
      | true =>
        right
        exact ⟨job, held job, rfl, Or.inl hc1.1, rfl⟩
      | false => left; rfl
    · rw [if_neg hc1]
      by_cases hc2 : job.status = .queued
      · rw [if_pos hc2]
        right
        exact ⟨job, [], rfl, Or.inr hc2, rfl⟩
      · rw [if_neg hc2]
        left
        rfl

/-- Every operation splits the new store into evolved old entries
followed by freshly queued ones whose ids were not in the store. -/
theorem step_evolve {s s1 : State} (hstep : Step s s1) (hinv : Inv s) :
    ∃ olds news, s1.jobs = olds ++ news
      ∧ List.Forall₂ JobEvolve s.jobs olds
      ∧ ∀ e1 ∈ news, e1.2.status = .queued ∧ e1.1 ∉ s.jobs.map Prod.fst := by
  have hjnd := hinv.2.2.1
  cases hstep with
  | submit now cfg s =>
    obtain ⟨j, hjq, hjobs, _, _, _⟩ := submit_shape now cfg s
    refine ⟨s.jobs, [(s.next_job_id, j)], hjobs, forall2_refl_of jobEvolve_refl s.jobs, ?_⟩
    intro e1 he1
    have heq1 : e1 = (s.next_job_id, j) := by simpa using he1
    rw [heq1]
    refine ⟨hjq, ?_⟩
    intro hmem
    obtain ⟨e, hemem, hke⟩ := List.mem_map.mp hmem
    have hke2 : e.1 = s.next_job_id := hke
    have := hinv.2.2.2.1 e hemem
    omega
  | poll cfg probe s =>
    refine ⟨(update_gpu_info cfg probe s).jobs, [], (List.append_nil _).symm, ?_,
      by intro e1 he1; cases he1⟩
    have hj : (update_gpu_info cfg probe s).jobs = s.jobs := by cases probe <;> rfl
    rw [hj]
    exact forall2_refl_of jobEvolve_refl s.jobs
  | reap alive exitOf now s =>
    refine ⟨(check_running_jobs alive exitOf now s).jobs, [], (List.append_nil _).symm, ?_,
      by intro e1 he1; cases he1⟩
    show List.Forall₂ JobEvolve s.jobs
      (s.jobs.map (fun e => (e.1, reapJob alive exitOf now e.2)))
    refine forall2_map_of ?_
    intro a _
    rcases reapJob_eq_or alive exitOf now a.2 with heq | ⟨p, _, _, hrun, heq⟩
    · exact ⟨rfl, by rw [heq], by rw [heq]; exact Relation.ReflTransGen.refl⟩
    · refine ⟨rfl, by rw [heq], ?_⟩
      show StatusPath a.2.status (reapJob alive exitOf now a.2).status
      rw [heq, hrun]
      exact statusPath_running_completed
  | place pid? now s =>
    refine ⟨(start_pending_jobs pid? now s).jobs, [], (List.append_nil _).symm, ?_,
      by intro e1 he1; cases he1⟩
    unfold start_pending_jobs
    by_cases h1 : (availableGpus s.gpus).isEmpty = true
    · rw [if_pos h1]
      exact forall2_refl_of jobEvolve_refl s.jobs
    · rw [if_neg h1]
      by_cases h2 : s.queue.isEmpty = true
      · rw [if_pos h2]
        exact forall2_refl_of jobEvolve_refl s.jobs
      · rw [if_neg h2]
        exact placeLoop_evolve pid? now s.queue (availableGpus s.gpus) [] s.jobs s.gpus hjnd
  | cancel sigOk now jid s =>
    refine ⟨(cancel_job sigOk now jid s).2.jobs, [], (List.append_nil _).symm, ?_,
      by intro e1 he1; cases he1⟩
    rcases cancel_shape2 sigOk now jid s with heq | ⟨job, ids, hlook, hstatus, heq⟩
    · rw [heq]
      exact forall2_refl_of jobEvolve_refl s.jobs
    · rw [heq]
      show List.Forall₂ JobEvolve s.jobs
        (updJob s.jobs jid (fun j => { j with status := Status.cancelled, end_time := some now }))
      refine forall2_map_of ?_
      intro a ha
      by_cases hak : a.1 = jid
      · have haeq : a = (jid, job) :=
          eq_of_mem_of_keys_nodup hjnd ha (lookup_mem hlook) hak
        rw [if_pos hak]
        refine ⟨rfl, rfl, ?_⟩
        show StatusPath a.2.status Status.cancelled
        have : a.2.status = job.status := by rw [haeq]
        rw [this]
        rcases hstatus with hrun | hq
        · rw [hrun]
          exact statusPath_running_cancelled
        · rw [hq]
          exact statusPath_queued_cancelled
      · rw [if_neg hak]
        exact jobEvolve_refl a

/-- C2: every operation on a reachable state moves each stored job's
status along a path of the DAG with edges `queued → running`,
`running → completed | failed | cancelled` and `queued → cancelled`:
each stored entry either descends from a same-keyed entry of the old
store along such a path, or is a freshly created entry that enters as
`queued` under an id not previously in the store; in particular (second
conjunct) a job whose stored status is `cancelled` keeps status
`cancelled` across every operation — it never becomes running again —
because (third conjunct) `cancelled` has no outgoing edge in the DAG. -/
theorem status_transitions_dag :
    ∀ s s1, Reachable s → Step s s1 →
      (∀ e1 ∈ s1.jobs,
        (∃ e ∈ s.jobs, e.1 = e1.1 ∧ StatusPath e.2.status e1.2.status)
        ∨ (e1.2.status = .queued ∧ e1.1 ∉ s.jobs.map Prod.fst))
      ∧ (∀ e ∈ s.jobs, e.2.status = .cancelled →
        ∀ e1 ∈ s1.jobs, e1.1 = e.1 → e1.2.status = .cancelled)
      ∧ (∀ a b, StatusPath a b → a = .cancelled → b = .cancelled) := by
  intro s s1 hreach hstep
  have hinv := reachable_inv s hreach
  obtain ⟨olds, news, hsplit, hforall, hnews⟩ := step_evolve hstep hinv
  have hpart1 : ∀ e1 ∈ s1.jobs,
      (∃ e ∈ s.jobs, e.1 = e1.1 ∧ StatusPath e.2.status e1.2.status)
      ∨ (e1.2.status = .queued ∧ e1.1 ∉ s.jobs.map Prod.fst) := by
    intro e1 he1
    rw [hsplit] at he1
    rcases List.mem_append.mp he1 with hm | hm
    · obtain ⟨e, he, hev⟩ := forall2_mem_right hforall e1 hm
      exact Or.inl ⟨e, he, hev.1.symm, hev.2.2⟩
    · exact Or.inr (hnews e1 hm)
  refine ⟨hpart1, ?_, statusPath_cancelled_terminal⟩
  intro e he hc e1 he1 hk
  rcases hpart1 e1 he1 with ⟨e2, he2, hk2, hpath⟩ | ⟨_, hfresh⟩
  · have hee : e2 = e := eq_of_mem_of_keys_nodup hinv.2.2.1 he2 he (hk2.trans hk)
    rw [hee] at hpath
    exact statusPath_cancelled_terminal _ _ hpath hc
  · have : e1.1 ∈ s.jobs.map Prod.fst := by
      rw [hk]
      exact List.mem_map_of_mem Prod.fst he
    exact absurd this hfresh

/-- C2 witness: the theorem instantiated at the submission step from the
fresh state. -/
theorem status_transitions_dag_witness :
    (∀ e1 ∈ (submit_job 0 jcSleep initState).2.jobs,
      (∃ e ∈ initState.jobs, e.1 = e1.1 ∧ StatusPath e.2.status e1.2.status)
      ∨ (e1.2.status = .queued ∧ e1.1 ∉ initState.jobs.map Prod.fst))
    ∧ (∀ e ∈ initState.jobs, e.2.status = .cancelled →
      ∀ e1 ∈ (submit_job 0 jcSleep initState).2.jobs, e1.1 = e.1 → e1.2.status = .cancelled)
    ∧ (∀ a b, StatusPath a b → a = .cancelled → b = .cancelled) :=
  status_transitions_dag initState (submit_job 0 jcSleep initState).2
    Relation.ReflTransGen.refl (Step.submit 0 jcSleep initState)

/-- The record `submit_job` stores carries the submitted field values
verbatim; only a missing or empty name is replaced by the default. -/
theorem submit_shape_fields (now : Nat) (cfg : JobConfig) (s : State) :
    ∃ j : Job, (submit_job now cfg s).2.jobs = s.jobs ++ [(s.next_job_id, j)]
      ∧ j.command = cfg.command ∧ j.gpu_ids = cfg.gpu_ids ∧ j.num_gpus = cfg.num_gpus
      ∧ j.memory_limit = cfg.memory_limit ∧ j.priority = cfg.priority
      ∧ (∀ n, cfg.name = some n → n ≠ "" → j.name = some n) := by
  refine ⟨_, rfl, rfl, rfl, rfl, rfl, rfl, ?_⟩
  intro n hn hne
  show (match cfg.name with
      | none => some ("job-job" ++ toString s.next_job_id)
      | some n' =>
        if n' = "" then some ("job-job" ++ toString s.next_job_id) else some n') = some n
  rw [hn]
  dsimp only
  rw [if_neg hne]

/-- C9 (amended): a `GET /jobs/(id)` after an accepted submission
returns `command`, `gpu_ids`, `num_gpus`, `memory_limit` and `priority`
exactly as submitted, and `name` as submitted whenever it was a
non-empty string (an absent or empty name is replaced by the
`job-<id>` default, as the counterexample shows); and no scheduler
operation ever mutates any submitted configuration field of a stored
job. -/
theorem submission_roundtrip :
    (∀ now cfg s, (∀ e ∈ s.jobs, e.1 < s.next_job_id) →
      ∃ j, get_job_status (submit_job now cfg s).1 (submit_job now cfg s).2 = some j
        ∧ j.command = cfg.command ∧ j.gpu_ids = cfg.gpu_ids ∧ j.num_gpus = cfg.num_gpus
        ∧ j.memory_limit = cfg.memory_limit ∧ j.priority = cfg.priority
        ∧ (∀ n, cfg.name = some n → n ≠ "" → j.name = some n))
    ∧ (∀ s s1, Reachable s → Step s s1 →
      ∀ e ∈ s.jobs, ∃ e1 ∈ s1.jobs, e1.1 = e.1 ∧ e1.2.toJobConfig = e.2.toJobConfig) := by
  constructor
  · intro now cfg s hfresh
    obtain ⟨j, hjobs, hcmd, hgids, hnum, hmem, hpri, hname⟩ := submit_shape_fields now cfg s
    refine ⟨j, ?_, hcmd, hgids, hnum, hmem, hpri, hname⟩
    unfold get_job_status
    have hfst : (submit_job now cfg s).1 = s.next_job_id := rfl
    rw [hfst, hjobs]
    refine lookup_append_fresh s.jobs s.next_job_id j ?_
    intro e he
    have := hfresh e he
    omega
  · intro s s1 hreach hstep e he
    obtain ⟨olds, news, hsplit, hforall, _⟩ := step_evolve hstep (reachable_inv s hreach)
    obtain ⟨e1, he1, hev⟩ := forall2_mem_left hforall e he
    refine ⟨e1, ?_, hev.1, hev.2.1⟩
    rw [hsplit]
    exact List.mem_append_left news he1

/-- C9 counterexample: submitting with the explicit empty-string name
`""` (falsy in python) stores and returns the defaulted name
`job-job1`, not the submitted value. -/
theorem name_not_roundtripped_cex :
    (get_job_status 1 (submit_job 0 { command := "c", name := some "" } initState).2).map
        (fun j => j.name)
      = some (some "job-job1")
    ∧ some (some "job-job1") ≠ some (some "") := ⟨by decide, by decide⟩

/-- C9 witness: the round trip at a fresh-state submission and the
frame property at the submission step on `sRun`. -/
theorem submission_roundtrip_witness :
    (∃ j, get_job_status (submit_job 5 jcSleep initState).1 (submit_job 5 jcSleep initState).2
        = some j
      ∧ j.command = jcSleep.command ∧ j.gpu_ids = jcSleep.gpu_ids
      ∧ j.num_gpus = jcSleep.num_gpus ∧ j.memory_limit = jcSleep.memory_limit
      ∧ j.priority = jcSleep.priority
      ∧ (∀ n, jcSleep.name = some n → n ≠ "" → j.name = some n))
    ∧ (∀ e ∈ sRun.jobs, ∃ e1 ∈ (submit_job 2 jcEcho sRun).2.jobs,
        e1.1 = e.1 ∧ e1.2.toJobConfig = e.2.toJobConfig) :=
  ⟨submission_roundtrip.1 5 jcSleep initState (by intro e he; cases he),
   submission_roundtrip.2 sRun (submit_job 2 jcEcho sRun).2 sRun_reachable
     (Step.submit 2 jcEcho sRun)⟩

end GpuSched
